import Mathlib

/-!
Shallow embedding of `hippopt.base.opti_solver.OptiSolver` (file
`src/hippopt/base/opti_solver.py`): the symbol-tree generation
(`_generate_opti_object`, `_generate_objects_from_instance`,
`_generate_objects_from_list`, `generate_optimization_objects`), the
solution extraction (`_generate_solution_output`), the initial-guess
injection (`_set_opti_guess`, `_set_initial_guess_internal`,
`set_initial_guess`), and the session-level cost/solve/result API
(`add_cost`, `solve`, `get_values`, `get_cost_value`, `cost_function`).

Python values occurring in the walked trees are embedded as the inductive
`Value`; numpy arrays are abstracted to shape plus a data token; the CasADi
`Opti` object is a state of created symbolic handles; `set_initial` /
`set_value` calls are recorded in an ordered log.
-/

namespace Hippopt

/-- A numpy-style numeric array, abstracted to its shape and a scalar data
token. `shape.length` plays the role of `ndim`. -/
structure NArray where
  shape : List Nat
  data : Int
deriving DecidableEq, Repr

/-- The role tag stored in a field's metadata under
`OptimizationObject.StorageTypeField`: `Variable.StorageTypeValue`,
`Parameter.StorageTypeValue`, or any other tag value. -/
inductive StorageTypeValue where
  | variableTag
  | parameterTag
  | otherTag
deriving DecidableEq, Repr

/-- A Python value as it occurs in the trees walked by `OptiSolver`:
`None`, a numpy array, a CasADi MX handle (carrying its symbolic shape, as
`MX.shape` does), a dataclass instance (`OptimizationObject`) given as its
ordered fields (name, storage metadata, value), a Python list, or plain
untagged data. -/
inductive Value where
  | vnone : Value
  | arr : NArray → Value
  | sym : Nat → List Nat → Value
  | obj : List (String × Option StorageTypeValue × Value) → Value
  | vlist : List Value → Value
  | plain : Int → Value
deriving Repr

/-- `isinstance(v, OptimizationObject)`. -/
def isOptObjB : Value → Bool
  | .obj _ => true
  | _ => false

/-- `isinstance(v, list)`. -/
def isListV : Value → Bool
  | .vlist _ => true
  | _ => false

/-- `isinstance(elem, OptimizationObject) or isinstance(elem, list)`. -/
def objOrList (v : Value) : Bool := isOptObjB v || isListV v

/-- `all(isinstance(elem, OptimizationObject) or isinstance(elem, list) for elem in l)`. -/
def allObjOrList : List Value → Bool
  | [] => true
  | v :: rest => objOrList v && allObjOrList rest

/-- `is_list and all(isinstance(elem, OptimizationObject) or isinstance(elem, list) ...)`:
the runtime classification of a value as a list of optimization objects. -/
def listOfOptObjs : Value → Bool
  | .vlist es => allObjOrList es
  | _ => false

/-- Kind of a solver-native symbolic handle: created by `Opti.variable` or
`Opti.parameter`. -/
inductive HandleKind where
  | varHandle
  | paramHandle
deriving DecidableEq, Repr

/-- The state of the underlying `cs.Opti` object together with the session's
registered symbol tree (`self._variables`): a counter of created handles and
the shape/kind record of each. -/
structure OptiState where
  nextHandle : Nat
  handles : List (Nat × HandleKind × List Nat)
  variablesReg : Option Value
deriving Repr

/-- `self._solver.variable(*shape)`. -/
def OptiState.newVariable (σ : OptiState) (sh : List Nat) : Value × OptiState :=
  (.sym σ.nextHandle sh,
    { σ with
      nextHandle := σ.nextHandle + 1
      handles := σ.handles ++ [(σ.nextHandle, .varHandle, sh)] })

/-- `self._solver.parameter(*shape)`. -/
def OptiState.newParameter (σ : OptiState) (sh : List Nat) : Value × OptiState :=
  (.sym σ.nextHandle sh,
    { σ with
      nextHandle := σ.nextHandle + 1
      handles := σ.handles ++ [(σ.nextHandle, .paramHandle, sh)] })

/-- Failure conditions of symbol generation, mirroring the `ValueError`s and
runtime errors of `_generate_opti_object` and
`generate_optimization_objects`. -/
inductive GenErr where
  | missingValue (name : String)
  | unsupportedRank (name : String)
  | axisError (name : String)
  | attrError (name : String)
  | unsupportedStorage
  | indexError
  | assertFailed
deriving DecidableEq, Repr

/-- The final dispatch of `_generate_opti_object` on the promoted shape:
`Variable.StorageTypeValue` creates a variable, `Parameter.StorageTypeValue`
a parameter, anything else raises `Unsupported input storage type`. -/
def optiDispatch (σ : OptiState) (storageType : StorageTypeValue) (sh : List Nat) :
    Except GenErr (Value × OptiState) :=
  match storageType with
  | .variableTag => .ok (σ.newVariable sh)
  | .parameterTag => .ok (σ.newParameter sh)
  | .otherTag => .error .unsupportedStorage

/-- `_generate_opti_object(storage_type, name, value)`. A `None` value raises;
an ndarray of rank > 2 raises; an ndarray of rank < 2 is promoted with
`np.expand_dims(value, axis=1)` (which raises `AxisError` on a 0-d array);
`cs.MX` values carry a `.shape` of their own; other values have no `.shape`
attribute. -/
def generateOptiObject (σ : OptiState) (storageType : StorageTypeValue)
    (name : String) (value : Value) : Except GenErr (Value × OptiState) :=
  match value with
  | .vnone => .error (.missingValue name)
  | .arr a =>
    if 2 < a.shape.length then .error (.unsupportedRank name)
    else
      match a.shape with
      | [] => .error (.axisError name)
      | [n] => optiDispatch σ storageType [n, 1]
      | sh => optiDispatch σ storageType sh
  | .sym _ sh => optiDispatch σ storageType sh
  | _ => .error (.attrError name)

/-- The per-element loop of the storage branch of
`_generate_objects_from_instance` for a list-valued storage field: one
`_generate_opti_object` per element, in order. -/
def genStorageList (σ : OptiState) (t : StorageTypeValue) (name : String) :
    List Value → Except GenErr (List Value × OptiState)
  | [] => .ok ([], σ)
  | v :: rest => do
      let (h, σ1) ← generateOptiObject σ t name v
      let (hs, σ2) ← genStorageList σ1 t name rest
      .ok (h :: hs, σ2)

mutual

/-- `generate_optimization_objects(input_structure)`: dispatches to
`_generate_objects_from_instance` on an `OptimizationObject`, and otherwise
to `_generate_objects_from_list` (whose `assert isinstance(input_structure,
list)` fails on anything else). Both register the produced tree as
`self._variables` after the walk. -/
def generateOptimizationObjects (σ : OptiState) (inputStructure : Value) :
    Except GenErr (Value × OptiState) :=
  match inputStructure with
  | .obj fs => do
      let (fs', σ') ← genFields σ fs
      let out := Value.obj fs'
      .ok (out, { σ' with variablesReg := some out })
  | .vlist es => do
      let (es', σ') ← genElems σ es
      let out := Value.vlist es'
      .ok (out, { σ' with variablesReg := some out })
  | _ => .error .assertFailed

/-- The field loop of `_generate_objects_from_instance`. -/
def genFields (σ : OptiState) :
    List (String × Option StorageTypeValue × Value) →
    Except GenErr (List (String × Option StorageTypeValue × Value) × OptiState)
  | [] => .ok ([], σ)
  | f :: rest => do
      let (f', σ1) ← genField σ f
      let (rest', σ2) ← genFields σ1 rest
      .ok (f' :: rest', σ2)

/-- One iteration of the field loop of `_generate_objects_from_instance`:
the composite branch (a nested `OptimizationObject`, or a list whose every
element is an `OptimizationObject` or a list) recurses; otherwise a
storage-tagged field creates one handle per element (or a single handle);
untagged fields are left untouched. -/
def genField (σ : OptiState) :
    String × Option StorageTypeValue × Value →
    Except GenErr ((String × Option StorageTypeValue × Value) × OptiState)
  | (name, tag, v) =>
    if isOptObjB v || listOfOptObjs v then do
      let (v', σ') ← generateOptimizationObjects σ v
      .ok ((name, tag, v'), σ')
    else
      match tag with
      | some t =>
        match v with
        | .vlist es => do
            let (hs, σ') ← genStorageList σ t name es
            .ok ((name, tag, .vlist hs), σ')
        | _ => do
            let (h, σ') ← generateOptiObject σ t name v
            .ok ((name, tag, h), σ')
      | none => .ok ((name, tag, v), σ)

/-- The element loop of `_generate_objects_from_list`. -/
def genElems (σ : OptiState) : List Value → Except GenErr (List Value × OptiState)
  | [] => .ok ([], σ)
  | v :: rest => do
      let (v', σ1) ← generateOptimizationObjects σ v
      let (rest', σ2) ← genElems σ1 rest
      .ok (v' :: rest', σ2)

end

/-- Failure conditions of `_generate_solution_output`. -/
inductive ExtErr where
  | typeErr
  | valueErr
deriving DecidableEq, Repr

/-- `np.array(self._opti_solution.value(el))` for a single handle: the
solution context resolves a created handle to a numeric array; anything that
is not a symbolic handle cannot be resolved. -/
def npValue (sol : Nat → NArray) : Value → Except ExtErr NArray
  | .sym h _ => .ok (sol h)
  | _ => .error .valueErr

/-- The read-back loop for a list-valued storage field of
`_generate_solution_output`. -/
def mapNpValue (sol : Nat → NArray) : List Value → Except ExtErr (List Value)
  | [] => .ok []
  | v :: rest => do
      let a ← npValue sol v
      let rest' ← mapNpValue sol rest
      .ok (Value.arr a :: rest')

mutual

/-- `_generate_solution_output(variables)`: element-wise on a list, per-field
on an `OptimizationObject` (`dataclasses.fields` raises `TypeError` on
anything else). -/
def generateSolutionOutput (sol : Nat → NArray) : Value → Except ExtErr Value
  | .vlist es => do
      let es' ← solElems sol es
      .ok (.vlist es')
  | .obj fs => do
      let fs' ← solOutFields sol fs
      .ok (.obj fs')
  | _ => .error .typeErr

/-- The element loop of `_generate_solution_output` for list input. -/
def solElems (sol : Nat → NArray) : List Value → Except ExtErr (List Value)
  | [] => .ok []
  | v :: rest => do
      let v' ← generateSolutionOutput sol v
      let rest' ← solElems sol rest
      .ok (v' :: rest')

/-- The field loop of `_generate_solution_output`: a field whose storage tag
is the Variable or Parameter storage-type value is read back from the
solution (element-wise if it holds a list); otherwise the composite branch
recurses; remaining fields are kept as deep-copied. -/
def solOutFields (sol : Nat → NArray) :
    List (String × Option StorageTypeValue × Value) →
    Except ExtErr (List (String × Option StorageTypeValue × Value))
  | [] => .ok []
  | (name, tag, v) :: rest =>
    match tag with
    | some .variableTag => do
        let v' ← solStorageRead sol v
        let rest' ← solOutFields sol rest
        .ok ((name, tag, v') :: rest')
    | some .parameterTag => do
        let v' ← solStorageRead sol v
        let rest' ← solOutFields sol rest
        .ok ((name, tag, v') :: rest')
    | _ =>
      if isOptObjB v || listOfOptObjs v then do
        let v' ← generateSolutionOutput sol v
        let rest' ← solOutFields sol rest
        .ok ((name, tag, v') :: rest')
      else do
        let rest' ← solOutFields sol rest
        .ok ((name, tag, v) :: rest')

/-- The storage read-back of `_generate_solution_output` for one field:
a list of handles is read element-wise, a single handle directly. -/
def solStorageRead (sol : Nat → NArray) (v : Value) : Except ExtErr Value :=
  match v with
  | .vlist es => do
      let es' ← mapNpValue sol es
      .ok (.vlist es')
  | _ => do
      let a ← npValue sol v
      .ok (.arr a)

end

/-- A mutating call made by the guess injector on the `cs.Opti` object:
`set_initial(variable, value)` or `set_value(variable, value)`. -/
inductive SolverCall where
  | setInitial (h : Nat) (v : NArray)
  | setValue (h : Nat) (v : NArray)
deriving DecidableEq, Repr

/-- Failure conditions of `_set_initial_guess_internal`, keyed by the
diagnostic path (`base_name` concatenations) of the raising position. -/
inductive GuessErr where
  | structureMismatch (path : String)
  | lengthMismatch (path : String) (expected got : Nat)
  | unknownField (path : String)
  | notAList (path : String)
  | notAnArray (path : String)
  | shapeMismatch (path : String)
  | indexErr (path : String)
  | attrErr (path : String)
  | typeErr (path : String)
  | solverCallErr (path : String)
deriving DecidableEq, Repr

/-- Result of a guess-injection walk: the ordered log of solver calls made
before returning, and the raised error if the walk aborted. Calls made
before an abort are retained (no rollback). -/
abbrev SgiResult := List SolverCall × Option GuessErr

/-- `hasattr(v, name)`: a dataclass instance has exactly its fields (the
built-in attributes of lists and `None`, such as list methods, are not
modelled — no walked field is named after them). -/
def hasattrV (v : Value) (name : String) : Bool :=
  match v with
  | .obj fs => fs.any (fun f => f.1 = name)
  | _ => false

/-- `v.__getattribute__(name)`. -/
def getattrV (v : Value) (name : String) : Option Value :=
  match v with
  | .obj fs => (fs.find? (fun f => f.1 = name)).map (fun f => f.2.2)
  | _ => none

/-- `x.shape`: defined for numpy arrays and CasADi MX handles. -/
def shapeOfV : Value → Option (List Nat)
  | .sym _ sh => some sh
  | .arr a => some a.shape
  | _ => none

/-- `guess.shape if len(guess.shape) > 1 else (guess.shape[0], 1)`: the
rank-1-to-column promotion of a guess array's shape; `none` models the
IndexError of `shape[0]` on a 0-d array. -/
def promoteGuessShape (sh : List Nat) : Option (List Nat) :=
  if 1 < sh.length then some sh
  else
    match sh with
    | [n] => some [n, 1]
    | _ => none

/-- `_set_opti_guess(storage_type, variable, value)`: dispatches on the
storage type; the Variable storage-type value issues `set_initial`, the
Parameter one `set_value`, and any other tag silently falls through the
`match` statement (no call, no error). -/
def setOptiGuess (storageType : StorageTypeValue) (variableV : Value)
    (value : NArray) : SgiResult :=
  match storageType with
  | .variableTag =>
    match variableV with
    | .sym h _ => ([.setInitial h value], none)
    | _ => ([], some (.solverCallErr ""))
  | .parameterTag =>
    match variableV with
    | .sym h _ => ([.setValue h value], none)
    | _ => ([], some (.solverCallErr ""))
  | .otherTag => ([], none)

/-- The single-leaf validation and application of
`_set_initial_guess_internal` for a storage-tagged field whose symbol-tree
value is not a list: promote the guess shape, compare with
`corresponding_value.shape`, then apply. -/
def sgiStorageSingle (t : StorageTypeValue) (cv : Value) (a : NArray)
    (path : String) : SgiResult :=
  match promoteGuessShape a.shape with
  | none => ([], some (.indexErr path))
  | some ish =>
    match shapeOfV cv with
    | none => ([], some (.attrErr path))
    | some csh =>
      if csh ≠ ish then ([], some (.shapeMismatch path))
      else setOptiGuess t cv a

/-- The element loop of `_set_initial_guess_internal` for a storage-tagged
list field: iterates over the indices of `corresponding_value`, indexing
into the guess (IndexError when the guess list is shorter), validating each
element as a numpy array of matching promoted shape, and applying it. -/
def sgiStorageList (t : StorageTypeValue) (cvs gs : List Value)
    (path : String) (i : Nat) : SgiResult :=
  match cvs with
  | [] => ([], none)
  | cv :: cvrest =>
    match gs with
    | [] => ([], some (.indexErr path))
    | g :: grest =>
      match g with
      | .arr a =>
        match promoteGuessShape a.shape with
        | none => ([], some (.indexErr (path ++ "[" ++ toString i ++ "]")))
        | some ish =>
          match shapeOfV cv with
          | none => ([], some (.attrErr path))
          | some csh =>
            if csh ≠ ish then
              ([], some (.shapeMismatch (path ++ "[" ++ toString i ++ "]")))
            else
              let r := setOptiGuess t cv a
              match r.2 with
              | some e => (r.1, some e)
              | none =>
                let r2 := sgiStorageList t cvrest grest path (i + 1)
                (r.1 ++ r2.1, r2.2)
      | _ => ([], some (.notAnArray (path ++ "[" ++ toString i ++ "]")))

mutual

/-- `_set_initial_guess_internal(initial_guess, corresponding_variable,
base_name)`: a list guess requires a list variable of identical length and
recurses element-wise; otherwise the guess must be a dataclass instance
(`dataclasses.fields` raises `TypeError` on anything else) and its fields
are walked in order. -/
def setInitialGuessInternal (initialGuess correspondingVariable : Value)
    (baseName : String) : SgiResult :=
  match initialGuess with
  | .vlist gs =>
    match correspondingVariable with
    | .vlist vs =>
      if vs.length ≠ gs.length then
        ([], some (.lengthMismatch baseName vs.length gs.length))
      else sgiElems gs vs baseName 0
    | _ => ([], some (.structureMismatch baseName))
  | .obj gfs => sgiFields gfs correspondingVariable baseName
  | _ => ([], some (.typeErr baseName))
termination_by structural initialGuess

/-- The element loop of `_set_initial_guess_internal` for list input
(lengths are equal when this runs). -/
def sgiElems (gs vs : List Value) (baseName : String) (i : Nat) : SgiResult :=
  match gs, vs with
  | g :: grest, v :: vrest =>
    let r := setInitialGuessInternal g v (baseName ++ "[" ++ toString i ++ "].")
    match r.2 with
    | some e => (r.1, some e)
    | none =>
      let r2 := sgiElems grest vrest baseName (i + 1)
      (r.1 ++ r2.1, r2.2)
  | _, _ => ([], none)
termination_by structural gs

/-- The field loop of `_set_initial_guess_internal`. -/
def sgiFields (gfs : List (String × Option StorageTypeValue × Value))
    (correspondingVariable : Value) (baseName : String) : SgiResult :=
  match gfs with
  | [] => ([], none)
  | f :: rest =>
    let r := sgiField f correspondingVariable baseName
    match r.2 with
    | some e => (r.1, some e)
    | none =>
      let r2 := sgiFields rest correspondingVariable baseName
      (r.1 ++ r2.1, r2.2)
termination_by structural gfs

/-- One iteration of the field loop of `_set_initial_guess_internal`: a
`None` guess is skipped; a storage-tagged field checks field existence,
then list-vs-single agreement (note: the list branch raises its length
error when the lengths are EQUAL — the check in the source is inverted),
shape agreement, and applies; an untagged field recurses, first checking
field existence when the guess value is an `OptimizationObject`. -/
def sgiField (f : String × Option StorageTypeValue × Value)
    (correspondingVariable : Value) (baseName : String) : SgiResult :=
  match f with
  | (name, tag, gval) =>
    match gval with
    | .vnone => ([], none)
    | _ =>
      match tag with
      | some t =>
        if hasattrV correspondingVariable name then
          match getattrV correspondingVariable name with
          | none => ([], some (.attrErr (baseName ++ name)))
          | some cv =>
            match cv with
            | .vlist cvs =>
              match gval with
              | .vlist gs =>
                if cvs.length = gs.length then
                  ([], some (.lengthMismatch (baseName ++ name) cvs.length gs.length))
                else sgiStorageList t cvs gs (baseName ++ name) 0
              | _ => ([], some (.notAList (baseName ++ name)))
            | _ =>
              match gval with
              | .arr a => sgiStorageSingle t cv a (baseName ++ name)
              | _ => ([], some (.notAnArray (baseName ++ name)))
        else ([], some (.unknownField (baseName ++ name)))
      | none =>
        if isOptObjB gval && !(hasattrV correspondingVariable name) then
          ([], some (.unknownField (baseName ++ name)))
        else
          match getattrV correspondingVariable name with
          | none => ([], some (.attrErr (baseName ++ name)))
          | some cv => setInitialGuessInternal gval cv (baseName ++ name ++ ".")
termination_by structural f

end

/-- A CasADi MX scalar expression, as accumulated by `add_cost`. -/
inductive MX where
  | const (n : Int)
  | symExpr (h : Nat)
  | add (a b : MX)
deriving DecidableEq, Repr

/-- Numeric evaluation of an MX expression under an assignment of the
symbolic handles. -/
def MX.eval (env : Nat → Int) : MX → Int
  | .const n => n
  | .symExpr h => env h
  | .add a b => MX.eval env a + MX.eval env b

/-- Session-level failure conditions of the `OptiSolver` API. -/
inductive SessionErr where
  | solutionNotAvailable
  | genFailed (e : GenErr)
  | guessFailed (e : GuessErr)
  | extFailed (e : ExtErr)
  | solverFailure
deriving DecidableEq, Repr

/-- The mutable state of one `OptiSolver` instance: the accumulated cost
(`self._cost`, initially `None`), the expression last passed to
`self._solver.minimize`, whether `self._opti_solution` is set, the extracted
solution tree (`self._output_solution`), the solved cost value
(`self._output_cost`), the solver/symbol-tree state, the ordered log of
`set_initial`/`set_value` calls, and the number of constraints forwarded. -/
structure Session where
  cost : Option MX
  minimized : Option MX
  optiSolutionSet : Bool
  outputSolution : Option Value
  outputCost : Option Int
  sigma : OptiState
  calls : List SolverCall
  constraintsCount : Nat

/-- A freshly constructed `OptiSolver`. -/
def Session.init : Session :=
  ⟨none, none, false, none, none, ⟨0, [], none⟩, [], 0⟩

/-- `add_cost(input_cost)`: installs the first cost, accumulates later ones
by `+=`. -/
def Session.addCost (s : Session) (c : MX) : Session :=
  match s.cost with
  | none => { s with cost := some c }
  | some old => { s with cost := some (old.add c) }

/-- `add_constraint(input_constraint)`: forwarded immediately to
`self._solver.subject_to`. -/
def Session.addConstraint (s : Session) : Session :=
  { s with constraintsCount := s.constraintsCount + 1 }

/-- `cost_function()`. -/
def Session.costFunction (s : Session) : Option MX := s.cost

/-- `get_values()`: raises `SolutionNotAvailableException` while
`self._output_solution is None`. -/
def Session.getValues (s : Session) : Except SessionErr Value :=
  match s.outputSolution with
  | none => .error .solutionNotAvailable
  | some v => .ok v

/-- `get_cost_value()`: raises `SolutionNotAvailableException` while
`self._output_cost is None`. -/
def Session.getCostValue (s : Session) : Except SessionErr Int :=
  match s.outputCost with
  | none => .error .solutionNotAvailable
  | some c => .ok c

/-- `generate_optimization_objects` at the session level. -/
def Session.generateObjs (s : Session) (input : Value) :
    Session × Option SessionErr :=
  match generateOptimizationObjects s.sigma input with
  | .ok (_, σ') => ({ s with sigma := σ' }, none)
  | .error e => (s, some (.genFailed e))

/-- `set_initial_guess(initial_guess)`: walks the guess against
`self._variables` (still `None` before generation). -/
def Session.setGuess (s : Session) (guess : Value) : Session × Option SessionErr :=
  let r := setInitialGuessInternal guess (s.sigma.variablesReg.getD .vnone) ""
  ({ s with calls := s.calls ++ r.1 }, r.2.map .guessFailed)

/-- `solve()`: substitutes `cs.MX(0)` for an unset cost, minimizes it, runs
the external solver (the oracle `external` is `none` when it raises), then
sets `self._output_cost` from the solution and finally extracts
`self._output_solution`; an extraction failure propagates after the cost
value was already stored. -/
def Session.solveStep (s : Session) (external : Option (Nat → NArray)) :
    Session × Option SessionErr :=
  let cost := s.cost.getD (MX.const 0)
  let s1 := { s with cost := some cost, minimized := some cost }
  match external with
  | none => (s1, some .solverFailure)
  | some sol =>
    let env : Nat → Int := fun h => (sol h).data
    let s2 := { s1 with optiSolutionSet := true, outputCost := some (MX.eval env cost) }
    match generateSolutionOutput sol (s2.sigma.variablesReg.getD .vnone) with
    | .error e => (s2, some (.extFailed e))
    | .ok out => ({ s2 with outputSolution := some out }, none)

/-- One caller-visible operation on a session; `solveOp` carries the
external solver's oracle outcome. -/
inductive SessionOp where
  | genObjs (input : Value)
  | setGuessOp (g : Value)
  | addCostOp (c : MX)
  | addConstraintOp
  | solveOp (external : Option (Nat → NArray))

/-- Executes one operation, returning the updated session and the raised
error, if any (a raised error leaves the state reached so far in place). -/
def stepSession (s : Session) : SessionOp → Session × Option SessionErr
  | .genObjs v => s.generateObjs v
  | .setGuessOp g => s.setGuess g
  | .addCostOp c => (s.addCost c, none)
  | .addConstraintOp => (s.addConstraint, none)
  | .solveOp ext => s.solveStep ext

/-- Runs a trace of operations (the caller catching every exception),
returning the final session together with two flags: whether some `solve()`
reached a successful external solve, and whether some `solve()` completed
fully (external solve and extraction both succeeded). -/
def runTrace (s : Session) : List SessionOp → Session × Bool × Bool
  | [] => (s, false, false)
  | op :: rest =>
    let p := stepSession s op
    let extOk : Bool :=
      match op with
      | .solveOp (some _) => true
      | _ => false
    let fullOk : Bool :=
      match op, p.2 with
      | .solveOp (some _), none => true
      | _, _ => false
    let q := runTrace p.1 rest
    (q.1, extOk || q.2.1, fullOk || q.2.2)

/-!
Heap model of symbol generation, used to settle the non-mutation claim:
`OptimizationObject` instances are mutable heap cells (`__setattr__` writes
into them), `copy.deepcopy` allocates fresh cells, and
`_generate_objects_from_instance` mutates only the copy it allocated.
-/

/-- A Python value with dataclass instances represented as references into a
heap. -/
inductive HVal where
  | href (a : Nat)
  | harr (a : NArray)
  | hsym (h : Nat) (sh : List Nat)
  | hnone
  | hlist (vs : List HVal)
  | hplain (n : Int)
deriving Repr

/-- A heap of dataclass instances: each cell holds the ordered fields
(name, storage metadata, value) of one instance. Allocation uses `next` as
the fresh address. -/
structure Heap where
  cells : List (Nat × List (String × Option StorageTypeValue × HVal))
  next : Nat

/-- Lookup of a cell by address. -/
def cellsFind (a : Nat) :
    List (Nat × List (String × Option StorageTypeValue × HVal)) →
    Option (List (String × Option StorageTypeValue × HVal))
  | [] => none
  | c :: rest => if c.1 = a then some c.2 else cellsFind a rest

def Heap.find (H : Heap) (a : Nat) :
    Option (List (String × Option StorageTypeValue × HVal)) :=
  cellsFind a H.cells

def Heap.alloc (H : Heap) (fs : List (String × Option StorageTypeValue × HVal)) :
    Nat × Heap :=
  (H.next, ⟨H.cells ++ [(H.next, fs)], H.next + 1⟩)

/-- `instance.__setattr__(name, v)`: mutates the cell at address `a`. -/
def Heap.setField (H : Heap) (a : Nat) (name : String) (v : HVal) : Heap :=
  ⟨H.cells.map (fun c =>
      if c.1 = a then
        (c.1, c.2.map (fun f => if f.1 = name then (f.1, f.2.1, v) else f))
      else c),
    H.next⟩

/-- `isinstance(v, OptimizationObject)` on heap values. -/
def hIsObj : HVal → Bool
  | .href _ => true
  | _ => false

def hIsList : HVal → Bool
  | .hlist _ => true
  | _ => false

def hObjOrList (v : HVal) : Bool := hIsObj v || hIsList v

def hAllObjOrList : List HVal → Bool
  | [] => true
  | v :: rest => hObjOrList v && hAllObjOrList rest

def hListOfOptObjs : HVal → Bool
  | .hlist es => hAllObjOrList es
  | _ => false

mutual

/-- `copy.deepcopy` on a heap value: every reachable instance is re-allocated
at a fresh address; `none` models exhausted recursion fuel or a dangling
reference. Recursion fuel is a modelling artifact: every finite object graph
is copied in full once the fuel exceeds its size. -/
def dcVal (fuel : Nat) (H : Heap) (v : HVal) : Option (HVal × Heap) :=
  match fuel with
  | 0 => none
  | f + 1 =>
    match v with
    | .href a =>
      match H.find a with
      | none => none
      | some fs =>
        match dcFields f H fs with
        | none => none
        | some (fs', H1) =>
          let p := H1.alloc fs'
          some (.href p.1, p.2)
    | .hlist vs =>
      match dcList f H vs with
      | none => none
      | some (vs', H') => some (.hlist vs', H')
    | w => some (w, H)

def dcFields (fuel : Nat) (H : Heap)
    (fs : List (String × Option StorageTypeValue × HVal)) :
    Option (List (String × Option StorageTypeValue × HVal) × Heap) :=
  match fuel with
  | 0 => none
  | f + 1 =>
    match fs with
    | [] => some ([], H)
    | (name, tag, v) :: rest =>
      match dcVal f H v with
      | none => none
      | some (v', H1) =>
        match dcFields f H1 rest with
        | none => none
        | some (rest', H2) => some ((name, tag, v') :: rest', H2)

def dcList (fuel : Nat) (H : Heap) (vs : List HVal) : Option (List HVal × Heap) :=
  match fuel with
  | 0 => none
  | f + 1 =>
    match vs with
    | [] => some ([], H)
    | v :: rest =>
      match dcVal f H v with
      | none => none
      | some (v', H1) =>
        match dcList f H1 rest with
        | none => none
        | some (rest', H2) => some ((v' :: rest'), H2)

end

/-- Heap-model failure conditions of symbol generation. -/
inductive HErr where
  | ge (e : GenErr)
  | fuelOut
  | dangling
deriving DecidableEq, Repr

/-- `_generate_opti_object` on heap leaf values (identical to
`generateOptiObject`, which only inspects the leaf). -/
def genOptiObjectH (σ : OptiState) (storageType : StorageTypeValue)
    (name : String) (value : HVal) : Except HErr (HVal × OptiState) :=
  match value with
  | .hnone => .error (.ge (.missingValue name))
  | .harr a =>
    if 2 < a.shape.length then .error (.ge (.unsupportedRank name))
    else
      match a.shape with
      | [] => .error (.ge (.axisError name))
      | [n] =>
        match optiDispatch σ storageType [n, 1] with
        | .ok (.sym h sh, σ') => .ok (.hsym h sh, σ')
        | .ok _ => .error .dangling
        | .error e => .error (.ge e)
      | sh =>
        match optiDispatch σ storageType sh with
        | .ok (.sym h sh', σ') => .ok (.hsym h sh', σ')
        | .ok _ => .error .dangling
        | .error e => .error (.ge e)
  | .hsym _ sh =>
    match optiDispatch σ storageType sh with
    | .ok (.sym h sh', σ') => .ok (.hsym h sh', σ')
    | .ok _ => .error .dangling
    | .error e => .error (.ge e)
  | _ => .error (.ge (.attrError name))

/-- Storage-list loop of the heap generator. -/
def genHStorageList (σ : OptiState) (t : StorageTypeValue) (name : String) :
    List HVal → Except HErr (List HVal × OptiState)
  | [] => .ok ([], σ)
  | v :: rest =>
    match genOptiObjectH σ t name v with
    | .error e => .error e
    | .ok (h, σ1) =>
      match genHStorageList σ1 t name rest with
      | .error e => .error e
      | .ok (hs, σ2) => .ok (h :: hs, σ2)

mutual

/-- Heap-model `generate_optimization_objects`: an instance is deep-copied
and then its copy is mutated field by field; a list is deep-copied and each
element regenerated. Errors propagate with the heap as mutated so far. -/
def genHVal (fuel : Nat) (σ : OptiState) (H : Heap) (v : HVal) :
    Heap × OptiState × Except HErr HVal :=
  match fuel with
  | 0 => (H, σ, .error .fuelOut)
  | f + 1 =>
    match v with
    | .href a =>
      match dcVal f H (.href a) with
      | none => (H, σ, .error .dangling)
      | some (.href c, H1) =>
        match H1.find c with
        | none => (H1, σ, .error .dangling)
        | some fs => genHFields f σ H1 c fs
      | some (_, H1) => (H1, σ, .error .dangling)
    | .hlist vs =>
      match dcVal f H (.hlist vs) with
      | none => (H, σ, .error .dangling)
      | some (.hlist vs', H1) => genHList f σ H1 vs'
      | some (_, H1) => (H1, σ, .error .dangling)
    | _ => (H, σ, .error (.ge .assertFailed))

/-- Field loop of the heap generator over the copied instance at address `c`
(fields are walked from the snapshot taken at copy time; field names of a
dataclass are distinct). -/
def genHFields (fuel : Nat) (σ : OptiState) (H : Heap) (c : Nat)
    (fs : List (String × Option StorageTypeValue × HVal)) :
    Heap × OptiState × Except HErr HVal :=
  match fuel with
  | 0 => (H, σ, .error .fuelOut)
  | f + 1 =>
    match fs with
    | [] => (H, σ, .ok (.href c))
    | (name, tag, v) :: rest =>
      if hIsObj v || hListOfOptObjs v then
        match genHVal f σ H v with
        | (H1, σ1, .error e) => (H1, σ1, .error e)
        | (H1, σ1, .ok v') => genHFields f σ1 (H1.setField c name v') c rest
      else
        match tag with
        | some t =>
          match v with
          | .hlist es =>
            match genHStorageList σ t name es with
            | .error e => (H, σ, .error e)
            | .ok (hs, σ1) =>
              genHFields f σ1 (H.setField c name (.hlist hs)) c rest
          | _ =>
            match genOptiObjectH σ t name v with
            | .error e => (H, σ, .error e)
            | .ok (h, σ1) => genHFields f σ1 (H.setField c name h) c rest
        | none => genHFields f σ H c rest

/-- Element loop of the heap generator for list input (`output[i] =
generate_optimization_objects(output[i])`). -/
def genHList (fuel : Nat) (σ : OptiState) (H : Heap) (vs : List HVal) :
    Heap × OptiState × Except HErr HVal :=
  match fuel with
  | 0 => (H, σ, .error .fuelOut)
  | f + 1 =>
    match vs with
    | [] => (H, σ, .ok (.hlist []))
    | v :: rest =>
      match genHVal f σ H v with
      | (H1, σ1, .error e) => (H1, σ1, .error e)
      | (H1, σ1, .ok v') =>
        match genHList f σ1 H1 rest with
        | (H2, σ2, .error e) => (H2, σ2, .error e)
        | (H2, σ2, .ok (.hlist rest')) => (H2, σ2, .ok (.hlist (v' :: rest')))
        | (H2, σ2, .ok _) => (H2, σ2, .error .dangling)

end

mutual

/-- Reads the pure value tree reachable from a heap value (the observation
under which "deeply equal" is stated). -/
def readBack (fuel : Nat) (H : Heap) (v : HVal) : Option Value :=
  match fuel with
  | 0 => none
  | f + 1 =>
    match v with
    | .href a =>
      match H.find a with
      | none => none
      | some fs =>
        match readBackFields f H fs with
        | none => none
        | some fs' => some (.obj fs')
    | .hlist vs =>
      match readBackList f H vs with
      | none => none
      | some vs' => some (.vlist vs')
    | .harr a => some (.arr a)
    | .hsym h sh => some (.sym h sh)
    | .hnone => some .vnone
    | .hplain n => some (.plain n)

def readBackFields (fuel : Nat) (H : Heap)
    (fs : List (String × Option StorageTypeValue × HVal)) :
    Option (List (String × Option StorageTypeValue × Value)) :=
  match fuel with
  | 0 => none
  | f + 1 =>
    match fs with
    | [] => some []
    | (name, tag, v) :: rest =>
      match readBack f H v with
      | none => none
      | some v' =>
        match readBackFields f H rest with
        | none => none
        | some rest' => some ((name, tag, v') :: rest')

def readBackList (fuel : Nat) (H : Heap) (vs : List HVal) : Option (List Value) :=
  match fuel with
  | 0 => none
  | f + 1 =>
    match vs with
    | [] => some []
    | v :: rest =>
      match readBack f H v with
      | none => none
      | some v' =>
        match readBackList f H rest with
        | none => none
        | some rest' => some (v' :: rest')

end

mutual

/-- All instance addresses occurring in a heap value lie below `n`. -/
def hValBelow (n : Nat) : HVal → Bool
  | .href a => decide (a < n)
  | .hlist vs => hListBelow n vs
  | _ => true

def hFieldsBelow (n : Nat) :
    List (String × Option StorageTypeValue × HVal) → Bool
  | [] => true
  | (_, _, v) :: rest => hValBelow n v && hFieldsBelow n rest

def hListBelow (n : Nat) : List HVal → Bool
  | [] => true
  | v :: rest => hValBelow n v && hListBelow n rest

end

/-- Every cell of the heap sits at an address below `n` and only refers to
addresses below `n` (well-formedness of a heap built by allocation). -/
def Heap.below (H : Heap) (n : Nat) : Bool :=
  H.cells.all (fun c => decide (c.1 < n) && hFieldsBelow n c.2)

/-!
Shape collectors and well-formedness predicates used to state the
round-trip property: `declShapes` collects the promoted shapes of the
storage leaves the generator materializes (following the generator's own
branch structure), `symShapes` the handle shapes the extractor will read
from a symbol tree, and `outShapes` the array shapes at the storage
positions of an extracted tree.
-/

/-- Rank-1-to-column promotion as performed at generation time. -/
def promoteDeclShape (sh : List Nat) : List Nat :=
  match sh with
  | [n] => [n, 1]
  | _ => sh

/-- Promoted declared shape of one storage leaf value. -/
def declShapesLeaf : Value → List (List Nat)
  | .arr a => [promoteDeclShape a.shape]
  | .sym _ sh => [sh]
  | _ => []

/-- Promoted declared shapes of a list-valued storage field, in order. -/
def declShapesStorage : List Value → List (List Nat)
  | [] => []
  | v :: rest => declShapesLeaf v ++ declShapesStorage rest

mutual

/-- Shapes of the storage leaves the generator materializes, in traversal
order, following the generator's branch structure. -/
def declShapes : Value → List (List Nat)
  | .obj fs => declShapesFields fs
  | .vlist es => declShapesElems es
  | _ => []

def declShapesFields : List (String × Option StorageTypeValue × Value) → List (List Nat)
  | [] => []
  | f :: rest => declShapesField f ++ declShapesFields rest

def declShapesField : String × Option StorageTypeValue × Value → List (List Nat)
  | (_, tag, v) =>
    if isOptObjB v || listOfOptObjs v then declShapes v
    else
      match tag with
      | some _ =>
        match v with
        | .vlist es => declShapesStorage es
        | _ => declShapesLeaf v
      | none => []

def declShapesElems : List Value → List (List Nat)
  | [] => []
  | v :: rest => declShapes v ++ declShapesElems rest

end

/-- Shape recorded by a single symbolic handle. -/
def symLeafShapes : Value → List (List Nat)
  | .sym _ sh => [sh]
  | _ => []

def symStorageList : List Value → List (List Nat)
  | [] => []
  | v :: rest => symLeafShapes v ++ symStorageList rest

/-- Handle shapes of one storage-tagged field of a symbol tree. -/
def symStorageShapes : Value → List (List Nat)
  | .vlist es => symStorageList es
  | v => symLeafShapes v

mutual

/-- Handle shapes the extractor reads from a symbol tree, in traversal
order, following the extractor's branch structure. -/
def symShapes : Value → List (List Nat)
  | .obj fs => symShapesFields fs
  | .vlist es => symShapesElems es
  | _ => []

def symShapesFields : List (String × Option StorageTypeValue × Value) → List (List Nat)
  | [] => []
  | f :: rest => symShapesField f ++ symShapesFields rest

def symShapesField : String × Option StorageTypeValue × Value → List (List Nat)
  | (_, tag, v) =>
    match tag with
    | some .variableTag => symStorageShapes v
    | some .parameterTag => symStorageShapes v
    | _ =>
      if isOptObjB v || listOfOptObjs v then symShapes v
      else []

def symShapesElems : List Value → List (List Nat)
  | [] => []
  | v :: rest => symShapes v ++ symShapesElems rest

end

/-- Shape of one read-back numeric array. -/
def arrLeafShapes : Value → List (List Nat)
  | .arr a => [a.shape]
  | _ => []

def arrStorageList : List Value → List (List Nat)
  | [] => []
  | v :: rest => arrLeafShapes v ++ arrStorageList rest

/-- Array shapes of one storage-tagged field of an extracted tree. -/
def arrStorageShapes : Value → List (List Nat)
  | .vlist es => arrStorageList es
  | v => arrLeafShapes v

mutual

/-- Array shapes at the storage positions of an extracted solution tree, in
traversal order. -/
def outShapes : Value → List (List Nat)
  | .obj fs => outShapesFields fs
  | .vlist es => outShapesElems es
  | _ => []

def outShapesFields : List (String × Option StorageTypeValue × Value) → List (List Nat)
  | [] => []
  | f :: rest => outShapesField f ++ outShapesFields rest

def outShapesField : String × Option StorageTypeValue × Value → List (List Nat)
  | (_, tag, v) =>
    match tag with
    | some .variableTag => arrStorageShapes v
    | some .parameterTag => arrStorageShapes v
    | _ =>
      if isOptObjB v || listOfOptObjs v then outShapes v
      else []

def outShapesElems : List Value → List (List Nat)
  | [] => []
  | v :: rest => outShapes v ++ outShapesElems rest

end

/-- Structural skeleton of a tree: field names and list lengths, with all
leaves erased. Two trees are structurally isomorphic when their skeletons
are equal. -/
inductive Skel where
  | leaf
  | node (fields : List (String × Skel))
  | seq (elems : List Skel)
deriving Repr

mutual

def skeleton : Value → Skel
  | .obj fs => .node (skelFields fs)
  | .vlist es => .seq (skelElems es)
  | _ => .leaf

def skelFields : List (String × Option StorageTypeValue × Value) → List (String × Skel)
  | [] => []
  | (n, _, v) :: rest => (n, skeleton v) :: skelFields rest

def skelElems : List Value → List Skel
  | [] => []
  | v :: rest => skeleton v :: skelElems rest

end

/-- A storage-tagged field value that actually is a shape-bearing leaf. -/
def storageOkLeaf : Value → Bool
  | .arr _ => true
  | _ => false

def storageOkList : List Value → Bool
  | [] => true
  | v :: rest => storageOkLeaf v && storageOkList rest

/-- A storage-tagged field declares a numeric array, or a list of numeric
arrays (the claims' "storage leaves declare numeric arrays"). -/
def storageOk : Value → Bool
  | .arr _ => true
  | .vlist es => storageOkList es
  | _ => false

mutual

/-- Well-formed generator input: a Structured Record (or nested lists of
records) whose storage-tagged fields declare numeric arrays or lists
thereof. -/
def wfVal : Value → Bool
  | .obj fs => wfFields fs
  | .vlist es => wfElems es
  | _ => false

def wfFields : List (String × Option StorageTypeValue × Value) → Bool
  | [] => true
  | f :: rest => wfField f && wfFields rest

def wfField : String × Option StorageTypeValue × Value → Bool
  | (_, tag, v) =>
    match tag with
    | some _ => storageOk v
    | none => if isOptObjB v || listOfOptObjs v then wfVal v else true

def wfElems : List Value → Bool
  | [] => true
  | v :: rest => objOrList v && wfVal v && wfElems rest

end

def isSymB : Value → Bool
  | .sym _ _ => true
  | _ => false

def allSyms : List Value → Bool
  | [] => true
  | v :: rest => isSymB v && allSyms rest

/-- A storage-position value the extractor can read back: a handle or a
list of handles. -/
def symOrSymList : Value → Bool
  | .sym _ _ => true
  | .vlist es => allSyms es
  | _ => false

mutual

/-- A tree the extractor processes without failure: every field tagged with
the Variable or Parameter storage-type value holds a handle or a list of
handles, and composite positions recurse. -/
def extractReady : Value → Bool
  | .obj fs => erFields fs
  | .vlist es => erElems es
  | _ => false

def erFields : List (String × Option StorageTypeValue × Value) → Bool
  | [] => true
  | f :: rest => erField f && erFields rest

def erField : String × Option StorageTypeValue × Value → Bool
  | (_, tag, v) =>
    match tag with
    | some .variableTag => symOrSymList v
    | some .parameterTag => symOrSymList v
    | _ =>
      if isOptObjB v || listOfOptObjs v then extractReady v
      else true

def erElems : List Value → Bool
  | [] => true
  | v :: rest => objOrList v && extractReady v && erElems rest

end

def symsOfLeaf : Value → List (Nat × List Nat)
  | .sym h sh => [(h, sh)]
  | _ => []

def symsOfStorageList : List Value → List (Nat × List Nat)
  | [] => []
  | v :: rest => symsOfLeaf v ++ symsOfStorageList rest

mutual

/-- All symbolic handles (with their recorded shapes) occurring in a tree. -/
def symsOf : Value → List (Nat × List Nat)
  | .sym h sh => [(h, sh)]
  | .obj fs => symsOfFields fs
  | .vlist es => symsOfElems es
  | _ => []

def symsOfFields : List (String × Option StorageTypeValue × Value) → List (Nat × List Nat)
  | [] => []
  | (_, _, v) :: rest => symsOf v ++ symsOfFields rest

def symsOfElems : List Value → List (Nat × List Nat)
  | [] => []
  | v :: rest => symsOf v ++ symsOfElems rest

end

/-!
Theorems settling the claims, together with the helper lemmas they share.
-/

/-- C3: during symbol generation, a storage-tagged leaf with a null declared
value fails with the missing-value error; a declared numeric value of rank
greater than 2 fails with the unsupported-rank error; a rank-1 value is
promoted to a column (N,1) matrix, and the symbolic handle is created with
exactly that promoted shape (for the Variable and the Parameter storage
types). -/
theorem C3_generation_leaf_checks (σ : OptiState) (t : StorageTypeValue) (name : String) :
    generateOptiObject σ t name .vnone = .error (.missingValue name) ∧
    (∀ a : NArray, 2 < a.shape.length →
      generateOptiObject σ t name (.arr a) = .error (.unsupportedRank name)) ∧
    (∀ (n : Nat) (d : Int),
      (t = .variableTag →
        generateOptiObject σ t name (.arr ⟨[n], d⟩) =
          .ok (.sym σ.nextHandle [n, 1],
            { σ with
              nextHandle := σ.nextHandle + 1
              handles := σ.handles ++ [(σ.nextHandle, .varHandle, [n, 1])] })) ∧
      (t = .parameterTag →
        generateOptiObject σ t name (.arr ⟨[n], d⟩) =
          .ok (.sym σ.nextHandle [n, 1],
            { σ with
              nextHandle := σ.nextHandle + 1
              handles := σ.handles ++ [(σ.nextHandle, .paramHandle, [n, 1])] }))) := by
  refine ⟨rfl, ?_, ?_⟩
  · intro a ha
    simp [generateOptiObject, ha]
  · intro n d
    constructor <;> rintro rfl <;>
      simp [generateOptiObject, optiDispatch, OptiState.newVariable, OptiState.newParameter]

/-- Witness for C3 at concrete inputs. -/
theorem C3_generation_leaf_checks_witness :
    generateOptiObject ⟨0, [], none⟩ .variableTag "x" .vnone =
      .error (.missingValue "x") ∧
    generateOptiObject ⟨0, [], none⟩ .variableTag "x" (.arr ⟨[2, 2, 2], 0⟩) =
      .error (.unsupportedRank "x") ∧
    generateOptiObject ⟨0, [], none⟩ .variableTag "x" (.arr ⟨[3], 0⟩) =
      .ok (.sym 0 [3, 1], ⟨1, [(0, .varHandle, [3, 1])], none⟩) := by
  refine ⟨(C3_generation_leaf_checks ⟨0, [], none⟩ .variableTag "x").1, ?_, ?_⟩
  · exact (C3_generation_leaf_checks ⟨0, [], none⟩ .variableTag "x").2.1 ⟨[2, 2, 2], 0⟩
      (by decide)
  · simpa using ((C3_generation_leaf_checks ⟨0, [], none⟩ .variableTag "x").2.2 3 0).1 rfl

/-- C9: a record field whose current value is an empty list is classified as
a list of optimization objects (the element-wise check holds vacuously) and
processed by the composite-list path, coming back as an empty list with no
symbolic handle created and the solver state unchanged apart from the
symbol-tree registration — even when the field carries a storage-role tag
(including a tag that the storage branch would reject). -/
theorem C9_empty_list_field_goes_composite (σ : OptiState) (name : String)
    (tag : Option StorageTypeValue) :
    genField σ (name, tag, .vlist []) =
      .ok ((name, tag, .vlist []), { σ with variablesReg := some (.vlist []) }) ∧
    ({ σ with variablesReg := some (.vlist []) } : OptiState).handles = σ.handles ∧
    ({ σ with variablesReg := some (.vlist []) } : OptiState).nextHandle = σ.nextHandle :=
  ⟨rfl, rfl, rfl⟩

/-- C10: `_set_opti_guess` with a storage tag that is neither the Variable
nor the Parameter storage-type value returns without raising and without any
`set_initial`/`set_value` call, whereas `_generate_opti_object` raises the
unsupported-storage-type error for the same tag (on a well-ranked array, the
very values for which the Variable/Parameter tags succeed). -/
theorem C10_other_tag_skipped_on_guess (v : Value) (a : NArray) :
    setOptiGuess .otherTag v a = ([], none) ∧
    (∀ (σ : OptiState) (name : String) (b : NArray),
      b.shape.length = 1 ∨ b.shape.length = 2 →
      generateOptiObject σ .otherTag name (.arr b) = .error .unsupportedStorage) := by
  refine ⟨rfl, ?_⟩
  intro σ name b hb
  obtain ⟨sh, d⟩ := b
  rcases hb with h1 | h2
  · obtain ⟨n, rfl⟩ : ∃ n, sh = [n] := by
      cases sh with
      | nil => simp at h1
      | cons x tl =>
        cases tl with
        | nil => exact ⟨x, rfl⟩
        | cons y tl' => simp at h1
    simp [generateOptiObject, optiDispatch]
  · obtain ⟨n, m, rfl⟩ : ∃ n m, sh = [n, m] := by
      cases sh with
      | nil => simp at h2
      | cons x tl =>
        cases tl with
        | nil => simp at h2
        | cons y tl' =>
          cases tl' with
          | nil => exact ⟨x, y, rfl⟩
          | cons z tl'' => simp at h2
    simp [generateOptiObject, optiDispatch]

/-- Witness for C10 at concrete inputs. -/
theorem C10_other_tag_skipped_on_guess_witness :
    setOptiGuess .otherTag (.sym 0 [3, 1]) ⟨[3, 1], 0⟩ = ([], none) ∧
    generateOptiObject ⟨0, [], none⟩ .otherTag "x" (.arr ⟨[3, 1], 0⟩) =
      .error .unsupportedStorage :=
  ⟨(C10_other_tag_skipped_on_guess (.sym 0 [3, 1]) ⟨[3, 1], 0⟩).1,
    (C10_other_tag_skipped_on_guess (.sym 0 [3, 1]) ⟨[3, 1], 0⟩).2 ⟨0, [], none⟩ "x"
      ⟨[3, 1], 0⟩ (Or.inr rfl)⟩

/-- C1: the source's field-level list-length check is inverted. Against a
symbol-tree list of length 1, a guess list of the same length 1 raises the
length-mismatch error (whose own message reads "wrong size. Expected: 1.
Guess: 1"), while a guess list of the differing length 2 passes the length
check and is applied. The spec's design notes flag exactly this inversion as
a latent defect, so the code, not the claim, is wrong here. -/
theorem C1_field_level_length_check_inverted :
    setInitialGuessInternal
      (.obj [("x", some .variableTag, .vlist [.arr ⟨[1, 1], 0⟩])])
      (.obj [("x", some .variableTag, .vlist [.sym 0 [1, 1]])]) "" =
      ([], some (.lengthMismatch "x" 1 1)) ∧
    setInitialGuessInternal
      (.obj [("x", some .variableTag, .vlist [.arr ⟨[1, 1], 0⟩, .arr ⟨[1, 1], 7⟩])])
      (.obj [("x", some .variableTag, .vlist [.sym 0 [1, 1]])]) "" =
      ([.setInitial 0 ⟨[1, 1], 0⟩], none) ∧
    setInitialGuessInternal
      (.vlist [.obj [("x", some .variableTag, .arr ⟨[1, 1], 0⟩)]])
      (.vlist []) "" =
      ([], some (.lengthMismatch "" 0 1)) :=
  ⟨rfl, rfl, rfl⟩

/-- C7 counterexample: a record guess against a list symbol tree does not
raise the structure-mismatch error — the walk iterates the record's fields
and the first present storage-tagged field fails the field-existence check
(`hasattr` on a list) with the unknown-field error instead. -/
theorem C7_counterexample :
    setInitialGuessInternal
      (.obj [("x", some .variableTag, .arr ⟨[1, 1], 0⟩)]) (.vlist []) "" =
      ([], some (.unknownField "x")) ∧
    (∀ p : String, GuessErr.unknownField "x" ≠ GuessErr.structureMismatch p) :=
  ⟨rfl, fun _ => by simp⟩

/-- C7 (amended): whenever the guess at a position where the walk recurses is
a sequence but the symbol tree there is not, `set_initial_guess` fails with
the structure-mismatch error; when the guess is a record but the symbol tree
is a sequence, the walk instead fails with the unknown-field error at the
first field present in the guess that is storage-tagged (and succeeds
vacuously when the record guess has no fields). -/
theorem C7_structure_mismatch_amended :
    (∀ (gs : List Value) (var : Value) (base : String), isListV var = false →
      setInitialGuessInternal (.vlist gs) var base =
        ([], some (.structureMismatch base))) ∧
    (∀ (name : String) (t : StorageTypeValue) (gval : Value)
        (rest : List (String × Option StorageTypeValue × Value))
        (vs : List Value) (base : String), gval ≠ .vnone →
      setInitialGuessInternal (.obj ((name, some t, gval) :: rest)) (.vlist vs) base =
        ([], some (.unknownField (base ++ name)))) ∧
    (∀ (vs : List Value) (base : String),
      setInitialGuessInternal (.obj []) (.vlist vs) base = ([], none)) := by
  refine ⟨?_, ?_, fun vs base => rfl⟩
  · intro gs var base h
    cases var <;> simp_all [setInitialGuessInternal, isListV]
  · intro name t gval rest vs base hg
    cases gval <;>
      first
        | exact absurd rfl hg
        | simp [setInitialGuessInternal, sgiFields, sgiField, hasattrV]

/-- Witness for C7 (amended) at concrete inputs. -/
theorem C7_structure_mismatch_amended_witness :
    setInitialGuessInternal (.vlist [.arr ⟨[1, 1], 0⟩]) (.obj []) "" =
      ([], some (.structureMismatch "")) ∧
    setInitialGuessInternal
      (.obj [("x", some .variableTag, .arr ⟨[1, 1], 0⟩)]) (.vlist []) "" =
      ([], some (.unknownField "x")) :=
  ⟨C7_structure_mismatch_amended.1 [.arr ⟨[1, 1], 0⟩] (.obj []) "" rfl,
    C7_structure_mismatch_amended.2.1 "x" .variableTag (.arr ⟨[1, 1], 0⟩) [] [] ""
      (by simp)⟩

theorem foldl_addCost_cost (cs : List MX) : ∀ (s : Session) (C : MX),
    s.cost = some C →
    (cs.foldl Session.addCost s).cost = some (cs.foldl MX.add C) := by
  induction cs with
  | nil => intro s C h; simpa using h
  | cons c rest ih =>
    intro s C h
    have hc : (Session.addCost s c).cost = some (C.add c) := by
      simp [Session.addCost, h]
    simpa using ih _ _ hc

theorem eval_foldl_add_congr (cs : List MX) : ∀ (a b : MX) (env : Nat → Int),
    MX.eval env a = MX.eval env b →
    MX.eval env (cs.foldl MX.add a) = MX.eval env (cs.foldl MX.add b) := by
  induction cs with
  | nil => intro a b env h; simpa using h
  | cons c rest ih =>
    intro a b env h
    simpa using ih (a.add c) (b.add c) env (by simp [MX.eval, h])

theorem solveStep_minimized (s : Session) (ext : Option (Nat → NArray)) :
    (s.solveStep ext).1.minimized = some (s.cost.getD (MX.const 0)) := by
  cases ext with
  | none => rfl
  | some sol =>
    simp only [Session.solveStep]
    cases h : generateSolutionOutput sol (s.sigma.variablesReg.getD .vnone) <;>
      simp [h]

theorem solveStep_cost (s : Session) (ext : Option (Nat → NArray)) :
    (s.solveStep ext).1.cost = some (s.cost.getD (MX.const 0)) := by
  cases ext with
  | none => rfl
  | some sol =>
    simp only [Session.solveStep]
    cases h : generateSolutionOutput sol (s.sigma.variablesReg.getD .vnone) <;>
      simp [h]

/-- C8 counterexample: with zero `add_cost` calls and no solve, the cost
expression returned by `cost_function()` is the unset marker `None`, not the
additive identity — the accumulator is initialized to `None`, not to 0. -/
theorem C8_counterexample :
    ¬ ∃ C, Session.init.costFunction = some C := by
  rintro ⟨C, hC⟩
  simp [Session.costFunction, Session.init] at hC

/-- C8 (amended): the cost starts unset; `add_cost(c1)` installs `c1` and
later calls accumulate by addition, so after `add_cost(c1) ... add_cost(cn)`
with n ≥ 1 the stored cost — returned by `cost_function` and minimized by
`solve` — evaluates identically to `0 + c1 + ... + cn`; with n = 0,
`cost_function` returns the unset marker while `solve` substitutes and
stores the additive identity. -/
theorem C8_cost_accumulation_amended :
    (∀ cs : List MX, cs ≠ [] →
      ∃ C, (cs.foldl Session.addCost Session.init).cost = some C ∧
        (cs.foldl Session.addCost Session.init).costFunction = some C ∧
        (∀ env : Nat → Int,
          MX.eval env C = MX.eval env (cs.foldl MX.add (MX.const 0))) ∧
        (∀ ext, ((cs.foldl Session.addCost Session.init).solveStep ext).1.minimized =
          some C)) ∧
    (Session.init.costFunction = none ∧
      ∀ ext, (Session.init.solveStep ext).1.minimized = some (MX.const 0) ∧
        (Session.init.solveStep ext).1.costFunction = some (MX.const 0)) := by
  constructor
  · intro cs hcs
    match cs with
    | [] => exact absurd rfl hcs
    | c :: rest =>
      refine ⟨rest.foldl MX.add c, ?_, ?_, ?_, ?_⟩
      · have h0 : (Session.addCost Session.init c).cost = some c := rfl
        simpa using foldl_addCost_cost rest _ c h0
      · have h0 : (Session.addCost Session.init c).cost = some c := rfl
        simpa [Session.costFunction] using foldl_addCost_cost rest _ c h0
      · intro env
        have hfold : (c :: rest).foldl MX.add (MX.const 0) =
            rest.foldl MX.add ((MX.const 0).add c) := by simp
        rw [hfold]
        exact eval_foldl_add_congr rest c ((MX.const 0).add c) env (by simp [MX.eval])
      · intro ext
        have h0 : (Session.addCost Session.init c).cost = some c := rfl
        have hc := foldl_addCost_cost rest _ c h0
        have := solveStep_minimized ((c :: rest).foldl Session.addCost Session.init) ext
        simp only [List.foldl_cons] at *
        rw [this, hc]
        rfl
  · refine ⟨rfl, fun ext => ⟨?_, ?_⟩⟩
    · simpa using solveStep_minimized Session.init ext
    · simpa [Session.costFunction] using solveStep_cost Session.init ext

/-- Witness for C8 (amended) at a concrete two-cost session. -/
theorem C8_cost_accumulation_amended_witness :
    ∃ C, (([MX.const 2, MX.const 3] : List MX).foldl Session.addCost Session.init).cost =
        some C ∧
      (([MX.const 2, MX.const 3] : List MX).foldl Session.addCost
        Session.init).costFunction = some C ∧
      (∀ env : Nat → Int,
        MX.eval env C =
          MX.eval env (([MX.const 2, MX.const 3] : List MX).foldl MX.add (MX.const 0))) ∧
      (∀ ext, ((([MX.const 2, MX.const 3] : List MX).foldl Session.addCost
          Session.init).solveStep ext).1.minimized = some C) :=
  C8_cost_accumulation_amended.1 [MX.const 2, MX.const 3] (by simp)

theorem generateObjs_outputs (s : Session) (v : Value) :
    (s.generateObjs v).1.outputSolution = s.outputSolution ∧
    (s.generateObjs v).1.outputCost = s.outputCost := by
  cases h : generateOptimizationObjects s.sigma v <;>
    simp [Session.generateObjs, h]

theorem setGuess_outputs (s : Session) (g : Value) :
    (s.setGuess g).1.outputSolution = s.outputSolution ∧
    (s.setGuess g).1.outputCost = s.outputCost := by
  simp [Session.setGuess]

theorem addCost_outputs (s : Session) (c : MX) :
    (s.addCost c).outputSolution = s.outputSolution ∧
    (s.addCost c).outputCost = s.outputCost := by
  cases h : s.cost <;> simp [Session.addCost, h]

theorem solveStep_none_outputs (s : Session) :
    (s.solveStep none).1.outputSolution = s.outputSolution ∧
    (s.solveStep none).1.outputCost = s.outputCost := by
  constructor <;> rfl

theorem solveStep_some_outputs (s : Session) (sol : Nat → NArray) :
    (s.solveStep (some sol)).1.outputCost.isSome = true ∧
    ((s.solveStep (some sol)).2 = none →
      (s.solveStep (some sol)).1.outputSolution.isSome = true) ∧
    (∀ e, (s.solveStep (some sol)).2 = some e →
      (s.solveStep (some sol)).1.outputSolution = s.outputSolution) := by
  simp only [Session.solveStep]
  cases h : generateSolutionOutput sol (s.sigma.variablesReg.getD .vnone) <;> simp [h]

theorem runTrace_flags (ops : List SessionOp) : ∀ s : Session,
    (runTrace s ops).1.outputSolution.isSome =
      ((runTrace s ops).2.2 || s.outputSolution.isSome) ∧
    (runTrace s ops).1.outputCost.isSome =
      ((runTrace s ops).2.1 || s.outputCost.isSome) ∧
    ((runTrace s ops).2.2 = true → (runTrace s ops).2.1 = true) := by
  induction ops with
  | nil => intro s; simp [runTrace]
  | cons op rest ih =>
    intro s
    cases op with
    | genObjs v =>
      have heff := generateObjs_outputs s v
      have h := ih (s.generateObjs v).1
      simp only [runTrace, stepSession] at *
      exact ⟨by rw [h.1, heff.1]; simp, by rw [h.2.1, heff.2]; simp, h.2.2⟩
    | setGuessOp g =>
      have heff := setGuess_outputs s g
      have h := ih (s.setGuess g).1
      simp only [runTrace, stepSession] at *
      exact ⟨by rw [h.1, heff.1]; simp, by rw [h.2.1, heff.2]; simp, h.2.2⟩
    | addCostOp c =>
      have heff := addCost_outputs s c
      have h := ih (s.addCost c)
      simp only [runTrace, stepSession] at *
      exact ⟨by rw [h.1, heff.1]; simp, by rw [h.2.1, heff.2]; simp, h.2.2⟩
    | addConstraintOp =>
      have h := ih s.addConstraint
      simp only [runTrace, stepSession] at *
      exact ⟨by rw [h.1]; simp [Session.addConstraint],
        by rw [h.2.1]; simp [Session.addConstraint], h.2.2⟩
    | solveOp ext =>
      cases ext with
      | none =>
        have heff := solveStep_none_outputs s
        have h := ih (s.solveStep none).1
        simp only [runTrace, stepSession] at *
        exact ⟨by rw [h.1, heff.1]; simp, by rw [h.2.1, heff.2]; simp, h.2.2⟩
      | some sol =>
        have heff := solveStep_some_outputs s sol
        have h := ih (s.solveStep (some sol)).1
        simp only [runTrace, stepSession] at *
        cases he : (s.solveStep (some sol)).2 with
        | none =>
          refine ⟨?_, ?_, fun _ => by simp [he]⟩
          · rw [h.1, heff.2.1 he]
            simp [he]
          · rw [h.2.1, Bool.or_comm]
            simp [heff.1, he]
        | some e =>
          refine ⟨?_, ?_, fun _ => by simp [he]⟩
          · rw [h.1, heff.2.2 e he]
            simp [he, Bool.or_assoc]
          · rw [h.2.1, Bool.or_comm]
            simp [heff.1, he]

/-- C6 (amended): before any fully successful `solve()` (external solve and
solution extraction both completed), `get_values()` raises the
solution-not-available error; before any `solve()` whose external solve
succeeded, `get_cost_value()` raises it too; after a fully successful
`solve()` both return without raising. A `solve()` that fails only during
solution extraction already leaves the cost value readable even though the
call raised. -/
theorem C6_presolve_access_guard (ops : List SessionOp) :
    ((runTrace Session.init ops).2.2 = false →
      (runTrace Session.init ops).1.getValues = .error .solutionNotAvailable) ∧
    ((runTrace Session.init ops).2.1 = false →
      (runTrace Session.init ops).1.getValues = .error .solutionNotAvailable ∧
      (runTrace Session.init ops).1.getCostValue = .error .solutionNotAvailable) ∧
    ((runTrace Session.init ops).2.2 = true →
      (∃ v, (runTrace Session.init ops).1.getValues = .ok v) ∧
      (∃ c, (runTrace Session.init ops).1.getCostValue = .ok c)) := by
  have h := runTrace_flags ops Session.init
  have hsol : Session.init.outputSolution.isSome = false := rfl
  have hcost : Session.init.outputCost.isSome = false := rfl
  rw [hsol, hcost, Bool.or_false, Bool.or_false] at h
  refine ⟨?_, ?_, ?_⟩
  · intro hf
    rw [hf] at h
    have : (runTrace Session.init ops).1.outputSolution = none :=
      Option.not_isSome_iff_eq_none.mp (by simp [h.1])
    simp [Session.getValues, this]
  · intro hf
    have h2 : (runTrace Session.init ops).2.2 = false := by
      cases hfull : (runTrace Session.init ops).2.2 with
      | false => rfl
      | true => exact absurd hf (by simp [h.2.2 hfull])
    rw [hf, h2] at h
    have hv : (runTrace Session.init ops).1.outputSolution = none :=
      Option.not_isSome_iff_eq_none.mp (by simp [h.1])
    have hc : (runTrace Session.init ops).1.outputCost = none :=
      Option.not_isSome_iff_eq_none.mp (by simp [h.2.1])
    exact ⟨by simp [Session.getValues, hv], by simp [Session.getCostValue, hc]⟩
  · intro hf
    have hext := h.2.2 hf
    rw [hf, hext] at h
    obtain ⟨v, hv⟩ := Option.isSome_iff_exists.mp h.1
    obtain ⟨c, hc⟩ := Option.isSome_iff_exists.mp h.2.1
    exact ⟨⟨v, by simp [Session.getValues, hv]⟩, ⟨c, by simp [Session.getCostValue, hc]⟩⟩

/-- C6 counterexample: calling `solve()` on a fresh session (the external
solve succeeding on the empty problem, the solution extraction then failing
on the never-generated `None` variables) raises — so no successful `solve()`
has completed — yet `get_cost_value()` afterwards returns the cost value
without raising, because `solve` stores `self._output_cost` before it
extracts `self._output_solution`. -/
theorem C6_counterexample :
    (stepSession Session.init (.solveOp (some fun _ => ⟨[1, 1], 0⟩))).2 =
      some (.extFailed .typeErr) ∧
    (stepSession Session.init (.solveOp (some fun _ => ⟨[1, 1], 0⟩))).1.getCostValue =
      .ok 0 ∧
    (stepSession Session.init (.solveOp (some fun _ => ⟨[1, 1], 0⟩))).1.getValues =
      .error .solutionNotAvailable :=
  ⟨rfl, rfl, rfl⟩

/-- Witness for C6 at a concrete trace containing one fully successful
solve. -/
theorem C6_presolve_access_guard_witness :
    (runTrace Session.init
        [.genObjs (.obj [("x", some .variableTag, .arr ⟨[3], 0⟩)]),
          .solveOp (some fun _ => ⟨[3, 1], 0⟩)]).2.2 = true ∧
    (∃ v, (runTrace Session.init
        [.genObjs (.obj [("x", some .variableTag, .arr ⟨[3], 0⟩)]),
          .solveOp (some fun _ => ⟨[3, 1], 0⟩)]).1.getValues = .ok v) ∧
    (∃ c, (runTrace Session.init
        [.genObjs (.obj [("x", some .variableTag, .arr ⟨[3], 0⟩)]),
          .solveOp (some fun _ => ⟨[3, 1], 0⟩)]).1.getCostValue = .ok c) :=
  ⟨rfl,
    (C6_presolve_access_guard
        [.genObjs (.obj [("x", some .variableTag, .arr ⟨[3], 0⟩)]),
          .solveOp (some fun _ => ⟨[3, 1], 0⟩)]).2.2 rfl⟩

theorem setOptiGuess_error_no_calls (t : StorageTypeValue) (v : Value) (a : NArray)
    (e : GuessErr) (h : (setOptiGuess t v a).2 = some e) :
    (setOptiGuess t v a).1 = [] := by
  cases t <;> cases v <;> simp_all [setOptiGuess]

theorem sgiFields_error_split
    (gfs : List (String × Option StorageTypeValue × Value)) :
    ∀ (var : Value) (base : String) (e : GuessErr),
    (sgiFields gfs var base).2 = some e →
    ∃ pre f post, gfs = pre ++ f :: post ∧
      (sgiFields pre var base).2 = none ∧
      (sgiField f var base).2 = some e ∧
      (sgiFields gfs var base).1 =
        (sgiFields pre var base).1 ++ (sgiField f var base).1 := by
  induction gfs with
  | nil => intro var base e h; simp [sgiFields] at h
  | cons f rest ih =>
    intro var base e h
    simp only [sgiFields] at h
    split at h
    next e' heq =>
      simp only [Option.some.injEq] at h
      subst h
      exact ⟨[], f, rest, rfl, rfl, heq, by simp [sgiFields, heq]⟩
    next heq =>
      obtain ⟨pre, g, post, hsplit, hpre, hf, hcs⟩ := ih var base e h
      refine ⟨f :: pre, g, post, by simp [hsplit], ?_, hf, ?_⟩
      · simp [sgiFields, heq, hpre]
      · simp [sgiFields, heq, hcs]

theorem sgiStorageList_error_split (cvs : List Value) :
    ∀ (t : StorageTypeValue) (gs : List Value) (path : String) (i : Nat)
      (e : GuessErr),
    (sgiStorageList t cvs gs path i).2 = some e →
    ∃ n, (sgiStorageList t (cvs.take n) (gs.take n) path i).2 = none ∧
      (sgiStorageList t cvs gs path i).1 =
        (sgiStorageList t (cvs.take n) (gs.take n) path i).1 ∧
      sgiStorageList t (cvs.drop n) (gs.drop n) path (i + n) = ([], some e) := by
  induction cvs with
  | nil => intro t gs path i e h; simp [sgiStorageList] at h
  | cons cv cvrest ih =>
    intro t gs path i e h
    cases gs with
    | nil =>
      refine ⟨0, rfl, ?_, ?_⟩ <;> simp_all [sgiStorageList]
    | cons g grest =>
      cases g with
      | arr a =>
        cases hp : promoteGuessShape a.shape with
        | none =>
          refine ⟨0, rfl, ?_, ?_⟩ <;> simp_all [sgiStorageList]
        | some ish =>
          cases hsv : shapeOfV cv with
          | none =>
            refine ⟨0, rfl, ?_, ?_⟩ <;> simp_all [sgiStorageList]
          | some csh =>
            by_cases hcs : csh = ish
            · subst hcs
              cases hr : (setOptiGuess t cv a).2 with
              | some e' =>
                have hcalls := setOptiGuess_error_no_calls t cv a e' hr
                refine ⟨0, rfl, ?_, ?_⟩ <;> simp_all [sgiStorageList]
              | none =>
                have h' : (sgiStorageList t cvrest grest path (i + 1)).2 = some e := by
                  simpa [sgiStorageList, hp, hsv, hr] using h
                obtain ⟨n, hn1, hn2, hn3⟩ := ih t grest path (i + 1) e h'
                refine ⟨n + 1, ?_, ?_, ?_⟩
                · simp [sgiStorageList, hp, hsv, hr, hn1]
                · simp [sgiStorageList, hp, hsv, hr, hn2]
                · have harith : i + 1 + n = i + (n + 1) := by omega
                  rw [← harith]
                  simpa using hn3
            · refine ⟨0, rfl, ?_, ?_⟩ <;> simp_all [sgiStorageList]
      | vnone => refine ⟨0, rfl, ?_, ?_⟩ <;> simp_all [sgiStorageList]
      | sym hh sh => refine ⟨0, rfl, ?_, ?_⟩ <;> simp_all [sgiStorageList]
      | obj fs => refine ⟨0, rfl, ?_, ?_⟩ <;> simp_all [sgiStorageList]
      | vlist es => refine ⟨0, rfl, ?_, ?_⟩ <;> simp_all [sgiStorageList]
      | plain p => refine ⟨0, rfl, ?_, ?_⟩ <;> simp_all [sgiStorageList]

/-- C2: a shape mismatch at a storage leaf raises the shape-mismatch error
with no solver call for that leaf, and any error raised during the field
walk (or during a storage-list walk) decomposes the walk: the calls made are
exactly those of the successfully processed prefix (retained — no
rollback), the failing position raises the error, and no position after the
failing one contributes any `set_initial`/`set_value` call. At the session
level, the calls recorded before the abort are appended to the session log
even when the walk raises. -/
theorem C2_shape_mismatch_aborts_walk :
    (∀ (t : StorageTypeValue) (cv : Value) (a : NArray) (path : String)
        (csh ish : List Nat),
      shapeOfV cv = some csh → promoteGuessShape a.shape = some ish → csh ≠ ish →
      sgiStorageSingle t cv a path = ([], some (.shapeMismatch path))) ∧
    (∀ (gfs : List (String × Option StorageTypeValue × Value)) (var : Value)
        (base : String) (e : GuessErr),
      (sgiFields gfs var base).2 = some e →
      ∃ pre f post, gfs = pre ++ f :: post ∧
        (sgiFields pre var base).2 = none ∧
        (sgiField f var base).2 = some e ∧
        (sgiFields gfs var base).1 =
          (sgiFields pre var base).1 ++ (sgiField f var base).1) ∧
    (∀ (t : StorageTypeValue) (cvs gs : List Value) (path : String) (i : Nat)
        (e : GuessErr),
      (sgiStorageList t cvs gs path i).2 = some e →
      ∃ n, (sgiStorageList t (cvs.take n) (gs.take n) path i).2 = none ∧
        (sgiStorageList t cvs gs path i).1 =
          (sgiStorageList t (cvs.take n) (gs.take n) path i).1 ∧
        sgiStorageList t (cvs.drop n) (gs.drop n) path (i + n) = ([], some e)) ∧
    (∀ (s : Session) (g : Value),
      (s.setGuess g).1.calls =
        s.calls ++ (setInitialGuessInternal g (s.sigma.variablesReg.getD .vnone) "").1) := by
  refine ⟨?_, ?_, ?_, fun s g => rfl⟩
  · intro t cv a path csh ish h1 h2 h3
    simp [sgiStorageSingle, h1, h2, h3]
  · intro gfs var base e h
    exact sgiFields_error_split gfs var base e h
  · intro t cvs gs path i e h
    exact sgiStorageList_error_split cvs t gs path i e h

/-- Witness for C2: a two-field record guess whose second storage leaf has a
mismatched shape aborts with the shape-mismatch error after applying exactly
the first leaf's call. -/
theorem C2_shape_mismatch_aborts_walk_witness :
    (sgiFields
        [("a", some .variableTag, .arr ⟨[2, 1], 4⟩),
          ("b", some .variableTag, .arr ⟨[5], 0⟩)]
        (.obj [("a", some .variableTag, .sym 0 [2, 1]),
          ("b", some .variableTag, .sym 1 [2, 1])]) "").2 =
      some (.shapeMismatch "b") ∧
    (∃ pre f post,
      ([("a", some .variableTag, .arr ⟨[2, 1], 4⟩),
          ("b", some .variableTag, .arr (⟨[5], 0⟩ : NArray))] :
        List (String × Option StorageTypeValue × Value)) = pre ++ f :: post ∧
      (sgiFields pre
        (.obj [("a", some .variableTag, .sym 0 [2, 1]),
          ("b", some .variableTag, .sym 1 [2, 1])]) "").2 = none ∧
      (sgiField f
        (.obj [("a", some .variableTag, .sym 0 [2, 1]),
          ("b", some .variableTag, .sym 1 [2, 1])]) "").2 =
        some (.shapeMismatch "b") ∧
      (sgiFields
        [("a", some .variableTag, .arr ⟨[2, 1], 4⟩),
          ("b", some .variableTag, .arr ⟨[5], 0⟩)]
        (.obj [("a", some .variableTag, .sym 0 [2, 1]),
          ("b", some .variableTag, .sym 1 [2, 1])]) "").1 =
        (sgiFields pre
          (.obj [("a", some .variableTag, .sym 0 [2, 1]),
            ("b", some .variableTag, .sym 1 [2, 1])]) "").1 ++
          (sgiField f
            (.obj [("a", some .variableTag, .sym 0 [2, 1]),
              ("b", some .variableTag, .sym 1 [2, 1])]) "").1) :=
  ⟨rfl,
    C2_shape_mismatch_aborts_walk.2.1
      [("a", some .variableTag, .arr ⟨[2, 1], 4⟩),
        ("b", some .variableTag, .arr ⟨[5], 0⟩)]
      (.obj [("a", some .variableTag, .sym 0 [2, 1]),
        ("b", some .variableTag, .sym 1 [2, 1])]) "" (.shapeMismatch "b") rfl⟩

theorem setField_next (H : Heap) (a : Nat) (name : String) (v : HVal) :
    (H.setField a name v).next = H.next := rfl

theorem find_setField_ne (H : Heap) (a b : Nat) (name : String) (v : HVal)
    (hab : b ≠ a) : (H.setField a name v).find b = H.find b := by
  obtain ⟨cells, next⟩ := H
  simp only [Heap.setField, Heap.find]
  induction cells with
  | nil => rfl
  | cons c rest ih =>
    by_cases hk : c.1 = a
    · have hkb : ¬(c.1 = b) := by rw [hk]; exact fun h => hab h.symm
      simp [cellsFind, hk, hkb, ih, hab, Ne.symm hab]
    · by_cases hkb : c.1 = b
      · simp [cellsFind, hk, hkb, hab, Ne.symm hab]
      · simp [cellsFind, hk, hkb, ih, hab, Ne.symm hab]

theorem alloc_next (H : Heap)
    (fs : List (String × Option StorageTypeValue × HVal)) :
    ((H.alloc fs).2).next = H.next + 1 := rfl

theorem find_alloc_lt (H : Heap)
    (fs : List (String × Option StorageTypeValue × HVal)) (b : Nat)
    (hb : b < H.next) : ((H.alloc fs).2).find b = H.find b := by
  obtain ⟨cells, next⟩ := H
  simp only [Heap.alloc, Heap.find] at *
  induction cells with
  | nil =>
    have hnb : ¬(next = b) := by omega
    simp [cellsFind, hnb]
  | cons c rest ih =>
    by_cases hkb : c.1 = b
    · simp [cellsFind, hkb]
    · simp [cellsFind, hkb, ih]

theorem dc_preserves (fuel : Nat) :
    (∀ H v v' H', dcVal fuel H v = some (v', H') →
      (∀ b, b < H.next → H'.find b = H.find b) ∧ H.next ≤ H'.next) ∧
    (∀ H fs fs' H', dcFields fuel H fs = some (fs', H') →
      (∀ b, b < H.next → H'.find b = H.find b) ∧ H.next ≤ H'.next) ∧
    (∀ H vs vs' H', dcList fuel H vs = some (vs', H') →
      (∀ b, b < H.next → H'.find b = H.find b) ∧ H.next ≤ H'.next) ∧
    (∀ H a v' H', dcVal fuel H (.href a) = some (v', H') →
      ∃ c, v' = .href c ∧ H.next ≤ c) := by
  induction fuel with
  | zero =>
    refine ⟨?_, ?_, ?_, ?_⟩ <;> intro H x y z h <;>
      simp [dcVal, dcFields, dcList] at h
  | succ f ih =>
    obtain ⟨ihv, ihf, ihl, ihr⟩ := ih
    have hfields : ∀ H fs fs' H', dcFields (f + 1) H fs = some (fs', H') →
        (∀ b, b < H.next → H'.find b = H.find b) ∧ H.next ≤ H'.next := by
      intro H fs fs' H' h
      induction fs generalizing H fs' H' with
      | nil =>
        simp only [dcFields, Option.some.injEq, Prod.mk.injEq] at h
        exact ⟨fun b _ => by rw [← h.2], by rw [← h.2]⟩
      | cons fld rest ihrest =>
        obtain ⟨name, tag, v⟩ := fld
        cases hdc : dcVal f H v with
        | none => simp [dcFields, hdc] at h
        | some p =>
          obtain ⟨v', H1⟩ := p
          cases hdr : dcFields f H1 rest with
          | none => simp [dcFields, hdc, hdr] at h
          | some q =>
            obtain ⟨rest', H2⟩ := q
            simp only [dcFields, hdc, hdr, Option.some.injEq, Prod.mk.injEq] at h
            have h1 := ihv H v v' H1 hdc
            have h2 := ihf H1 rest rest' H2 hdr
            constructor
            · intro b hb
              rw [← h.2, h2.1 b (lt_of_lt_of_le hb h1.2)]
              exact h1.1 b hb
            · rw [← h.2]; exact le_trans h1.2 h2.2
    have hlist : ∀ H vs vs' H', dcList (f + 1) H vs = some (vs', H') →
        (∀ b, b < H.next → H'.find b = H.find b) ∧ H.next ≤ H'.next := by
      intro H vs vs' H' h
      induction vs generalizing H vs' H' with
      | nil =>
        simp only [dcList, Option.some.injEq, Prod.mk.injEq] at h
        exact ⟨fun b _ => by rw [← h.2], by rw [← h.2]⟩
      | cons v rest ihrest =>
        cases hdc : dcVal f H v with
        | none => simp [dcList, hdc] at h
        | some p =>
          obtain ⟨v', H1⟩ := p
          cases hdr : dcList f H1 rest with
          | none => simp [dcList, hdc, hdr] at h
          | some q =>
            obtain ⟨rest', H2⟩ := q
            simp only [dcList, hdc, hdr, Option.some.injEq, Prod.mk.injEq] at h
            have h1 := ihv H v v' H1 hdc
            have h2 := ihl H1 rest rest' H2 hdr
            constructor
            · intro b hb
              rw [← h.2, h2.1 b (lt_of_lt_of_le hb h1.2)]
              exact h1.1 b hb
            · rw [← h.2]; exact le_trans h1.2 h2.2
    have hval : ∀ H v v' H', dcVal (f + 1) H v = some (v', H') →
        (∀ b, b < H.next → H'.find b = H.find b) ∧ H.next ≤ H'.next := by
      intro H v v' H' h
      cases v with
      | href a =>
        cases hfind : H.find a with
        | none => simp [dcVal, hfind] at h
        | some fs =>
          cases hdc : dcFields f H fs with
          | none => simp [dcVal, hfind, hdc] at h
          | some p =>
            obtain ⟨fs', H1⟩ := p
            simp only [dcVal, hfind, hdc, Option.some.injEq, Prod.mk.injEq] at h
            have hf := ihf H fs fs' H1 hdc
            constructor
            · intro b hb
              rw [← h.2, find_alloc_lt H1 fs' b (lt_of_lt_of_le hb hf.2)]
              exact hf.1 b hb
            · rw [← h.2, alloc_next]
              omega
      | hlist vs =>
        cases hdc : dcList f H vs with
        | none => simp [dcVal, hdc] at h
        | some p =>
          obtain ⟨vs', H1⟩ := p
          simp only [dcVal, hdc, Option.some.injEq, Prod.mk.injEq] at h
          have hl := ihl H vs vs' H1 hdc
          exact ⟨fun b hb => by rw [← h.2]; exact hl.1 b hb, by rw [← h.2]; exact hl.2⟩
      | harr a =>
        simp only [dcVal, Option.some.injEq, Prod.mk.injEq] at h
        exact ⟨fun b _ => by rw [← h.2], by rw [← h.2]⟩
      | hsym hh sh =>
        simp only [dcVal, Option.some.injEq, Prod.mk.injEq] at h
        exact ⟨fun b _ => by rw [← h.2], by rw [← h.2]⟩
      | hnone =>
        simp only [dcVal, Option.some.injEq, Prod.mk.injEq] at h
        exact ⟨fun b _ => by rw [← h.2], by rw [← h.2]⟩
      | hplain p =>
        simp only [dcVal, Option.some.injEq, Prod.mk.injEq] at h
        exact ⟨fun b _ => by rw [← h.2], by rw [← h.2]⟩
    refine ⟨hval, hfields, hlist, ?_⟩
    · intro H a v' H' h
      cases hfind : H.find a with
      | none => simp [dcVal, hfind] at h
      | some fs =>
        cases hdc : dcFields f H fs with
        | none => simp [dcVal, hfind, hdc] at h
        | some p =>
          obtain ⟨fs', H1⟩ := p
          simp only [dcVal, hfind, hdc, Option.some.injEq, Prod.mk.injEq] at h
          exact ⟨H1.next, h.1.symm, (ihf H fs fs' H1 hdc).2⟩

theorem genH_preserves (fuel : Nat) :
    (∀ σ H v, (∀ b, b < H.next → (genHVal fuel σ H v).1.find b = H.find b) ∧
      H.next ≤ (genHVal fuel σ H v).1.next) ∧
    (∀ σ H c fs, (∀ b, b < H.next → b ≠ c →
        (genHFields fuel σ H c fs).1.find b = H.find b) ∧
      H.next ≤ (genHFields fuel σ H c fs).1.next) ∧
    (∀ σ H vs, (∀ b, b < H.next → (genHList fuel σ H vs).1.find b = H.find b) ∧
      H.next ≤ (genHList fuel σ H vs).1.next) := by
  induction fuel with
  | zero =>
    refine ⟨?_, ?_, ?_⟩ <;> intro σ H x <;> simp [genHVal, genHFields, genHList]
  | succ f ih =>
    obtain ⟨ihv, ihf, ihl⟩ := ih
    obtain ⟨dcv, dcf, dcl, dcr⟩ := dc_preserves f
    have hval : ∀ σ H v, (∀ b, b < H.next →
          (genHVal (f + 1) σ H v).1.find b = H.find b) ∧
        H.next ≤ (genHVal (f + 1) σ H v).1.next := by
      intro σ H v
      cases v with
      | href a =>
        cases hdc : dcVal f H (.href a) with
        | none => simp [genHVal, hdc]
        | some p =>
          obtain ⟨v1, H1⟩ := p
          obtain ⟨c, hc, hcge⟩ := dcr H a v1 H1 hdc
          subst hc
          have hdp := dcv H (.href a) (.href c) H1 hdc
          cases hfc : H1.find c with
          | none =>
            simp only [genHVal, hdc, hfc]
            exact ⟨fun b hb => hdp.1 b hb, hdp.2⟩
          | some fs =>
            simp only [genHVal, hdc, hfc]
            have hgf := ihf σ H1 c fs
            constructor
            · intro b hb
              rw [hgf.1 b (lt_of_lt_of_le hb hdp.2) (by omega)]
              exact hdp.1 b hb
            · exact le_trans hdp.2 hgf.2
      | hlist vs =>
        cases hdc : dcVal f H (.hlist vs) with
        | none => simp [genHVal, hdc]
        | some p =>
          obtain ⟨v1, H1⟩ := p
          have hdp := dcv H (.hlist vs) v1 H1 hdc
          cases v1 with
          | hlist vs' =>
            simp only [genHVal, hdc]
            have hgl := ihl σ H1 vs'
            constructor
            · intro b hb
              rw [hgl.1 b (lt_of_lt_of_le hb hdp.2)]
              exact hdp.1 b hb
            · exact le_trans hdp.2 hgl.2
          | href a => simp only [genHVal, hdc]; exact ⟨fun b hb => hdp.1 b hb, hdp.2⟩
          | harr a => simp only [genHVal, hdc]; exact ⟨fun b hb => hdp.1 b hb, hdp.2⟩
          | hsym hh sh => simp only [genHVal, hdc]; exact ⟨fun b hb => hdp.1 b hb, hdp.2⟩
          | hnone => simp only [genHVal, hdc]; exact ⟨fun b hb => hdp.1 b hb, hdp.2⟩
          | hplain n => simp only [genHVal, hdc]; exact ⟨fun b hb => hdp.1 b hb, hdp.2⟩
      | harr a => simp [genHVal]
      | hsym hh sh => simp [genHVal]
      | hnone => simp [genHVal]
      | hplain n => simp [genHVal]
    have hfields : ∀ σ H c fs, (∀ b, b < H.next → b ≠ c →
          (genHFields (f + 1) σ H c fs).1.find b = H.find b) ∧
        H.next ≤ (genHFields (f + 1) σ H c fs).1.next := by
      intro σ H c fs
      cases fs with
      | nil => simp [genHFields]
      | cons fld rest =>
        obtain ⟨name, tag, v⟩ := fld
        by_cases hcomp : (hIsObj v || hListOfOptObjs v) = true
        · rcases hgen : genHVal f σ H v with ⟨H1, σ1, r⟩
          have hdp := ihv σ H v
          rw [hgen] at hdp
          cases r with
          | error e =>
            simp only [genHFields, hcomp, if_true, hgen]
            exact ⟨fun b hb _ => hdp.1 b hb, hdp.2⟩
          | ok v' =>
            simp only [genHFields, hcomp, if_true, hgen]
            have hrest := ihf σ1 (H1.setField c name v') c rest
            constructor
            · intro b hb hbc
              rw [hrest.1 b (by rw [setField_next]; exact lt_of_lt_of_le hb hdp.2) hbc]
              rw [find_setField_ne H1 c b name v' hbc]
              exact hdp.1 b hb
            · calc H.next ≤ H1.next := hdp.2
                _ = (H1.setField c name v').next := (setField_next H1 c name v').symm
                _ ≤ _ := hrest.2
        · have hcomp' : (hIsObj v || hListOfOptObjs v) = false := by
            simpa using hcomp
          cases tag with
          | none =>
            simp only [genHFields, hcomp', Bool.false_eq_true, if_false]
            exact ihf σ H c rest
          | some t =>
            cases v with
            | hlist es =>
              cases hsl : genHStorageList σ t name es with
              | error e => simp [genHFields, hcomp', hsl]
              | ok q =>
                obtain ⟨hs, σ1⟩ := q
                simp only [genHFields, hcomp', Bool.false_eq_true, if_false, hsl]
                have hrest := ihf σ1 (H.setField c name (.hlist hs)) c rest
                constructor
                · intro b hb hbc
                  rw [hrest.1 b (by rw [setField_next]; exact hb) hbc]
                  exact find_setField_ne H c b name (.hlist hs) hbc
                · calc H.next = (H.setField c name (.hlist hs)).next :=
                      (setField_next H c name (.hlist hs)).symm
                    _ ≤ _ := hrest.2
            | href a => simp [hIsObj] at hcomp'
            | harr a =>
              cases hso : genOptiObjectH σ t name (.harr a) with
              | error e => simp [genHFields, hcomp', hso]
              | ok q =>
                obtain ⟨h1, σ1⟩ := q
                simp only [genHFields, hcomp', Bool.false_eq_true, if_false, hso]
                have hrest := ihf σ1 (H.setField c name h1) c rest
                constructor
                · intro b hb hbc
                  rw [hrest.1 b (by rw [setField_next]; exact hb) hbc]
                  exact find_setField_ne H c b name h1 hbc
                · calc H.next = (H.setField c name h1).next :=
                      (setField_next H c name h1).symm
                    _ ≤ _ := hrest.2
            | hsym hh sh =>
              cases hso : genOptiObjectH σ t name (.hsym hh sh) with
              | error e => simp [genHFields, hcomp', hso]
              | ok q =>
                obtain ⟨h1, σ1⟩ := q
                simp only [genHFields, hcomp', Bool.false_eq_true, if_false, hso]
                have hrest := ihf σ1 (H.setField c name h1) c rest
                constructor
                · intro b hb hbc
                  rw [hrest.1 b (by rw [setField_next]; exact hb) hbc]
                  exact find_setField_ne H c b name h1 hbc
                · calc H.next = (H.setField c name h1).next :=
                      (setField_next H c name h1).symm
                    _ ≤ _ := hrest.2
            | hnone =>
              cases hso : genOptiObjectH σ t name .hnone with
              | error e => simp [genHFields, hcomp', hso]
              | ok q =>
                obtain ⟨h1, σ1⟩ := q
                simp [genOptiObjectH] at hso
            | hplain n =>
              cases hso : genOptiObjectH σ t name (.hplain n) with
              | error e => simp [genHFields, hcomp', hso]
              | ok q =>
                obtain ⟨h1, σ1⟩ := q
                simp [genOptiObjectH] at hso
    have hlst : ∀ σ H vs, (∀ b, b < H.next →
          (genHList (f + 1) σ H vs).1.find b = H.find b) ∧
        H.next ≤ (genHList (f + 1) σ H vs).1.next := by
      intro σ H vs
      cases vs with
      | nil => simp [genHList]
      | cons v rest =>
        rcases hgen : genHVal f σ H v with ⟨H1, σ1, r⟩
        have hdp := ihv σ H v
        rw [hgen] at hdp
        cases r with
        | error e =>
          simp only [genHList, hgen]
          exact ⟨fun b hb => hdp.1 b hb, hdp.2⟩
        | ok v' =>
          rcases hr : genHList f σ1 H1 rest with ⟨H2, σ2, r2⟩
          have hrest := ihl σ1 H1 rest
          rw [hr] at hrest
          have hpres : (∀ b, b < H.next → H2.find b = H.find b) ∧
              H.next ≤ H2.next := by
            constructor
            · intro b hb
              rw [hrest.1 b (lt_of_lt_of_le hb hdp.2)]
              exact hdp.1 b hb
            · exact le_trans hdp.2 hrest.2
          cases r2 with
          | error e => simp only [genHList, hgen, hr]; exact hpres
          | ok v2 =>
            cases v2 with
            | hlist rest' => simp only [genHList, hgen, hr]; exact hpres
            | href a => simp only [genHList, hgen, hr]; exact hpres
            | harr a => simp only [genHList, hgen, hr]; exact hpres
            | hsym hh sh => simp only [genHList, hgen, hr]; exact hpres
            | hnone => simp only [genHList, hgen, hr]; exact hpres
            | hplain n => simp only [genHList, hgen, hr]; exact hpres
    exact ⟨hval, hfields, hlst⟩

theorem below_find {H : Heap} {n a : Nat}
    {fs : List (String × Option StorageTypeValue × HVal)}
    (hH : H.below n = true) (hfind : H.find a = some fs) :
    hFieldsBelow n fs = true := by
  obtain ⟨cells, next⟩ := H
  simp only [Heap.below, Heap.find] at *
  induction cells with
  | nil => simp [cellsFind] at hfind
  | cons c rest ih =>
    simp only [List.all_cons, Bool.and_eq_true] at hH
    by_cases hk : c.1 = a
    · simp only [cellsFind, hk, if_pos, Option.some.injEq] at hfind
      rw [← hfind]
      exact hH.1.2
    · simp only [cellsFind, hk, if_false] at hfind
      exact ih hH.2 hfind

theorem readBack_congr (n : Nat) (H H' : Heap)
    (hpres : ∀ b, b < n → H'.find b = H.find b) (hH : H.below n = true) :
    ∀ fuel,
      (∀ v, hValBelow n v = true → readBack fuel H' v = readBack fuel H v) ∧
      (∀ fs, hFieldsBelow n fs = true →
        readBackFields fuel H' fs = readBackFields fuel H fs) ∧
      (∀ vs, hListBelow n vs = true →
        readBackList fuel H' vs = readBackList fuel H vs) := by
  intro fuel
  induction fuel with
  | zero =>
    refine ⟨?_, ?_, ?_⟩ <;> intro x hx <;>
      simp [readBack, readBackFields, readBackList]
  | succ f ih =>
    obtain ⟨ihv, ihf, ihl⟩ := ih
    refine ⟨?_, ?_, ?_⟩
    · intro v hv
      cases v with
      | href a =>
        have ha : a < n := by simpa [hValBelow] using hv
        simp only [readBack]
        rw [hpres a ha]
        cases hfind : H.find a with
        | none => rfl
        | some fs =>
          have hrw := ihf fs (below_find hH hfind)
          simp only [hfind, hrw]
      | hlist vs =>
        have hl : hListBelow n vs = true := by simpa [hValBelow] using hv
        simp only [readBack]
        rw [ihl vs hl]
      | harr a => rfl
      | hsym hh sh => rfl
      | hnone => rfl
      | hplain p => rfl
    · intro fs hfs
      cases fs with
      | nil => rfl
      | cons fld rest =>
        obtain ⟨name, tag, v⟩ := fld
        simp only [hFieldsBelow, Bool.and_eq_true] at hfs
        simp only [readBackFields]
        rw [ihv v hfs.1, ihf rest hfs.2]
    · intro vs hvs
      cases vs with
      | nil => rfl
      | cons v rest =>
        simp only [hListBelow, Bool.and_eq_true] at hvs
        simp only [readBackList]
        rw [ihv v hvs.1, ihl rest hvs.2]

/-- C4: heap-level non-mutation of symbol generation. For any well-formed
heap (all cells and references sit below the allocation frontier) and any
input value whose references sit below the frontier, running the generator
— which deep-copies before rewriting — leaves every observation of the
input unchanged: reading the input back from the post-generation heap gives
exactly the tree read before, for every read depth and every generation
fuel, whether generation succeeded or raised. -/
theorem C4_generate_never_mutates_input (H : Heap) (v : HVal) (σ : OptiState)
    (genFuel readFuel : Nat) (hH : H.below H.next = true)
    (hv : hValBelow H.next v = true) :
    readBack readFuel (genHVal genFuel σ H v).1 v = readBack readFuel H v := by
  have hpres := (genH_preserves genFuel).1 σ H v
  exact ((readBack_congr H.next H (genHVal genFuel σ H v).1
    (fun b hb => hpres.1 b hb) hH) readFuel).1 v hv

/-- Witness for C4 on a concrete one-field record heap. -/
theorem C4_generate_never_mutates_input_witness :
    (Heap.below ⟨[(0, [("x", some .variableTag, .harr ⟨[3], 0⟩)])], 1⟩ 1 = true) ∧
    (hValBelow 1 (.href 0) = true) ∧
    readBack 3
      (genHVal 5 ⟨0, [], none⟩
        ⟨[(0, [("x", some .variableTag, .harr ⟨[3], 0⟩)])], 1⟩ (.href 0)).1
      (.href 0) =
      readBack 3 ⟨[(0, [("x", some .variableTag, .harr ⟨[3], 0⟩)])], 1⟩ (.href 0) :=
  ⟨rfl, rfl,
    C4_generate_never_mutates_input
      ⟨[(0, [("x", some .variableTag, .harr ⟨[3], 0⟩)])], 1⟩ (.href 0)
      ⟨0, [], none⟩ 5 3 rfl rfl⟩

theorem erElems_allObjOrList (es : List Value) (h : erElems es = true) :
    allObjOrList es = true := by
  induction es with
  | nil => rfl
  | cons v rest ih =>
    simp only [erElems, Bool.and_eq_true] at h
    simp only [allObjOrList, Bool.and_eq_true]
    exact ⟨h.1.1, ih h.2⟩

theorem allObjOrList_storageOkList_nil (es : List Value)
    (h1 : allObjOrList es = true) (h2 : storageOkList es = true) : es = [] := by
  cases es with
  | nil => rfl
  | cons v rest =>
    simp only [allObjOrList, Bool.and_eq_true] at h1
    simp only [storageOkList, Bool.and_eq_true] at h2
    cases v with
    | arr a => simp [objOrList, isOptObjB, isListV] at h1
    | obj fs => simp [storageOkLeaf] at h2
    | vlist es' => simp [storageOkLeaf] at h2
    | vnone => simp [objOrList, isOptObjB, isListV] at h1
    | sym hh sh => simp [objOrList, isOptObjB, isListV] at h1
    | plain p => simp [objOrList, isOptObjB, isListV] at h1

theorem generateOptiObject_arr_shape (σ : OptiState) (t : StorageTypeValue)
    (name : String) (a : NArray) (w : Value) (σ' : OptiState)
    (h : generateOptiObject σ t name (.arr a) = .ok (w, σ')) :
    (t = .variableTag ∨ t = .parameterTag) ∧
    ∃ hd, w = .sym hd (promoteDeclShape a.shape) := by
  obtain ⟨sh, d⟩ := a
  cases sh with
  | nil => simp [generateOptiObject] at h
  | cons x tl =>
    cases tl with
    | nil =>
      cases t with
      | variableTag =>
        simp [generateOptiObject, optiDispatch, OptiState.newVariable] at h
        exact ⟨Or.inl rfl, σ.nextHandle, h.1.symm⟩
      | parameterTag =>
        simp [generateOptiObject, optiDispatch, OptiState.newParameter] at h
        exact ⟨Or.inr rfl, σ.nextHandle, h.1.symm⟩
      | otherTag => simp [generateOptiObject, optiDispatch] at h
    | cons y tl' =>
      cases tl' with
      | cons z tl'' =>
        have hgt : 2 < (NArray.mk (x :: y :: z :: tl'') d).shape.length := by
          simp
        have herr : generateOptiObject σ t name (.arr ⟨x :: y :: z :: tl'', d⟩) =
            .error (.unsupportedRank name) := by
          simp only [generateOptiObject]
          rw [if_pos hgt]
        rw [herr] at h
        exact absurd h (by simp)
      | nil =>
        cases t with
        | variableTag =>
          simp [generateOptiObject, optiDispatch, OptiState.newVariable] at h
          exact ⟨Or.inl rfl, σ.nextHandle, h.1.symm⟩
        | parameterTag =>
          simp [generateOptiObject, optiDispatch, OptiState.newParameter] at h
          exact ⟨Or.inr rfl, σ.nextHandle, h.1.symm⟩
        | otherTag => simp [generateOptiObject, optiDispatch] at h

theorem genStorageList_shapes (es : List Value) :
    ∀ (σ : OptiState) (t : StorageTypeValue) (name : String)
      (hs : List Value) (σ' : OptiState),
    storageOkList es = true → genStorageList σ t name es = .ok (hs, σ') →
    allSyms hs = true ∧ symStorageList hs = declShapesStorage es := by
  induction es with
  | nil =>
    intro σ t name hs σ' hok h
    simp only [genStorageList, Except.ok.injEq, Prod.mk.injEq] at h
    rw [← h.1]
    exact ⟨rfl, rfl⟩
  | cons v rest ih =>
    intro σ t name hs σ' hok h
    simp only [storageOkList, Bool.and_eq_true] at hok
    obtain ⟨a, rfl⟩ : ∃ a, v = .arr a := by
      cases v with
      | arr a => exact ⟨a, rfl⟩
      | vnone => simp [storageOkLeaf] at hok
      | sym hh sh => simp [storageOkLeaf] at hok
      | obj fs => simp [storageOkLeaf] at hok
      | vlist es' => simp [storageOkLeaf] at hok
      | plain p => simp [storageOkLeaf] at hok
    cases hgen : generateOptiObject σ t name (.arr a) with
    | error e => simp [genStorageList, hgen, bind, Except.bind] at h
    | ok p =>
      obtain ⟨w, σ1⟩ := p
      cases hrest : genStorageList σ1 t name rest with
      | error e => simp [genStorageList, hgen, hrest, bind, Except.bind] at h
      | ok q =>
        obtain ⟨ws, σ2⟩ := q
        simp only [genStorageList, hgen, hrest, bind, Except.bind,
          Except.ok.injEq, Prod.mk.injEq] at h
        obtain ⟨hd, hw⟩ := (generateOptiObject_arr_shape σ t name a w σ1 hgen).2
        have hihr := ih σ1 t name ws σ2 hok.2 hrest
        rw [← h.1]
        subst hw
        constructor
        · simp [allSyms, isSymB, hihr.1]
        · simp [symStorageList, symLeafShapes, declShapesStorage, declShapesLeaf,
            hihr.2]

theorem generator_extractReady :
    ∀ (_σ : OptiState) (v : Value), wfVal v = true →
      ∀ (σ0 : OptiState) (t : Value) (σ' : OptiState),
      generateOptimizationObjects σ0 v = .ok (t, σ') →
      extractReady t = true ∧ symShapes t = declShapes v ∧
      isOptObjB t = isOptObjB v ∧ isListV t = isListV v := by
  refine generateOptimizationObjects.induct
    (fun _ v => wfVal v = true →
      ∀ (σ0 : OptiState) (t : Value) (σ' : OptiState),
      generateOptimizationObjects σ0 v = .ok (t, σ') →
      extractReady t = true ∧ symShapes t = declShapes v ∧
      isOptObjB t = isOptObjB v ∧ isListV t = isListV v)
    (fun _ es => wfElems es = true →
      ∀ (σ0 : OptiState) (es' : List Value) (σ' : OptiState),
      genElems σ0 es = .ok (es', σ') →
      erElems es' = true ∧ symShapesElems es' = declShapesElems es)
    (fun _ fs => wfFields fs = true →
      ∀ (σ0 : OptiState) (fs' : List (String × Option StorageTypeValue × Value))
        (σ' : OptiState),
      genFields σ0 fs = .ok (fs', σ') →
      erFields fs' = true ∧ symShapesFields fs' = declShapesFields fs)
    (fun _ f => wfField f = true →
      ∀ (σ0 : OptiState) (f' : String × Option StorageTypeValue × Value)
        (σ' : OptiState),
      genField σ0 f = .ok (f', σ') →
      erField f' = true ∧ symShapesField f' = declShapesField f)
    ?_ ?_ ?_ ?_ ?_ ?_ ?_ ?_ ?_ ?_ ?_
  · -- obj
    intro σ fs hm3 hwf σ0 t σ' h
    cases hgf : genFields σ0 fs with
    | error e => simp [generateOptimizationObjects, hgf, bind, Except.bind] at h
    | ok p =>
      obtain ⟨fs', σ1⟩ := p
      simp only [generateOptimizationObjects, hgf, bind, Except.bind,
        Except.ok.injEq, Prod.mk.injEq] at h
      obtain ⟨h1, h2⟩ := h
      subst h1
      subst h2
      have hr := hm3 (by simpa [wfVal] using hwf) σ0 fs' σ1 hgf
      exact ⟨by simpa [extractReady] using hr.1,
        by simpa [symShapes, declShapes] using hr.2, rfl, rfl⟩
  · -- vlist
    intro σ es hm2 hwf σ0 t σ' h
    cases hge : genElems σ0 es with
    | error e => simp [generateOptimizationObjects, hge, bind, Except.bind] at h
    | ok p =>
      obtain ⟨es', σ1⟩ := p
      simp only [generateOptimizationObjects, hge, bind, Except.bind,
        Except.ok.injEq, Prod.mk.injEq] at h
      obtain ⟨h1, h2⟩ := h
      subst h1
      subst h2
      have hr := hm2 (by simpa [wfVal] using hwf) σ0 es' σ1 hge
      exact ⟨by simpa [extractReady] using hr.1,
        by simpa [symShapes, declShapes] using hr.2, rfl, rfl⟩
  · -- neither obj nor list
    intro v σ hobj hlist hwf
    cases v with
    | obj fs => exact absurd rfl (hobj fs)
    | vlist es => exact absurd rfl (hlist es)
    | vnone => simp [wfVal] at hwf
    | arr a => simp [wfVal] at hwf
    | sym hh sh => simp [wfVal] at hwf
    | plain p => simp [wfVal] at hwf
  · -- fields nil
    intro σ hwf σ0 fs' σ' h
    simp only [genFields, Except.ok.injEq, Prod.mk.injEq] at h
    rw [← h.1]
    exact ⟨rfl, rfl⟩
  · -- fields cons
    intro σ f rest hf4 hrest hwf σ0 out σ' h
    simp only [wfFields, Bool.and_eq_true] at hwf
    cases hgf : genField σ0 f with
    | error e => simp [genFields, hgf, bind, Except.bind] at h
    | ok p =>
      obtain ⟨f1, σ1⟩ := p
      cases hgr : genFields σ1 rest with
      | error e => simp [genFields, hgf, hgr, bind, Except.bind] at h
      | ok q =>
        obtain ⟨rest1, σ2⟩ := q
        simp only [genFields, hgf, hgr, bind, Except.bind,
          Except.ok.injEq, Prod.mk.injEq] at h
        rw [← h.1]
        have h1 := hf4 hwf.1 σ0 f1 σ1 hgf
        have h2 := (hrest σ1) hwf.2 σ1 rest1 σ2 hgr
        constructor
        · simp [erFields, h1.1, h2.1]
        · simp [symShapesFields, declShapesFields, h1.2, h2.2]
  · -- elems nil
    intro σ hwf σ0 es' σ' h
    simp only [genElems, Except.ok.injEq, Prod.mk.injEq] at h
    rw [← h.1]
    exact ⟨rfl, rfl⟩
  · -- elems cons
    intro σ v rest hv1 hrest hwf σ0 out σ' h
    simp only [wfElems, Bool.and_eq_true] at hwf
    cases hgv : generateOptimizationObjects σ0 v with
    | error e => simp [genElems, hgv, bind, Except.bind] at h
    | ok p =>
      obtain ⟨v1, σ1⟩ := p
      cases hgr : genElems σ1 rest with
      | error e => simp [genElems, hgv, hgr, bind, Except.bind] at h
      | ok q =>
        obtain ⟨rest1, σ2⟩ := q
        simp only [genElems, hgv, hgr, bind, Except.bind,
          Except.ok.injEq, Prod.mk.injEq] at h
        rw [← h.1]
        have h1 := hv1 hwf.1.2 σ0 v1 σ1 hgv
        have h2 := (hrest σ1) hwf.2 σ1 rest1 σ2 hgr
        have hcls : objOrList v1 = true := by
          simp only [objOrList, h1.2.2.1, h1.2.2.2]
          exact hwf.1.1
        constructor
        · simp [erElems, hcls, h1.1, h2.1]
        · simp [symShapesElems, declShapesElems, h1.2.1, h2.2]
  · -- field: composite branch
    intro σ name tag v hcond hv1 hwf σ0 f' σ' h
    simp only [genField, hcond, if_true] at h
    cases hgen : generateOptimizationObjects σ0 v with
    | error e => simp [hgen, bind, Except.bind] at h
    | ok p =>
      obtain ⟨v1, σ1⟩ := p
      simp only [hgen, bind, Except.bind, Except.ok.injEq, Prod.mk.injEq] at h
      rw [← h.1]
      cases tag with
      | none =>
        have hwfv : wfVal v = true := by
          simpa [wfField, hcond] using hwf
        have hr := hv1 hwfv σ0 v1 σ1 hgen
        have hcond1 : (isOptObjB v1 || listOfOptObjs v1) = true := by
          rcases Bool.or_eq_true _ _ |>.mp hcond with hco | hcl
          · simp [Bool.or_eq_true, hr.2.2.1, hco]
          · have hlv : isListV v = true := by
              cases v <;> simp_all [listOfOptObjs, isListV]
            have hlv1 : isListV v1 = true := by rw [hr.2.2.2]; exact hlv
            obtain ⟨es1, rfl⟩ : ∃ es1, v1 = .vlist es1 := by
              cases v1 <;> simp [isListV] at hlv1
              · exact ⟨_, rfl⟩
            have her : erElems es1 = true := by
              simpa [extractReady] using hr.1
            simp [listOfOptObjs, erElems_allObjOrList es1 her]
        refine ⟨?_, ?_⟩
        · simp [erField, hcond1, hr.1]
        · simp [symShapesField, declShapesField, hcond, hcond1, hr.2.1]
      | some t =>
        have hsok : storageOk v = true := by simpa [wfField] using hwf
        obtain rfl : v = .vlist [] := by
          rcases Bool.or_eq_true _ _ |>.mp hcond with hco | hcl
          · cases v <;> simp [isOptObjB] at hco
            simp [storageOk] at hsok
          · obtain ⟨es, rfl⟩ : ∃ es, v = .vlist es := by
              cases v <;> simp [listOfOptObjs] at hcl
              · exact ⟨_, rfl⟩
            have hnil := allObjOrList_storageOkList_nil es
              (by simpa [listOfOptObjs] using hcl)
              (by simpa [storageOk] using hsok)
            rw [hnil]
        have hv1eq : v1 = .vlist [] ∧ σ1 = { σ0 with variablesReg := some (.vlist []) } := by
          simpa [generateOptimizationObjects, genElems, bind, Except.bind,
            eq_comm] using hgen
        obtain ⟨rfl, rfl⟩ := hv1eq
        refine ⟨?_, ?_⟩
        · cases t <;>
            simp [erField, symOrSymList, allSyms, listOfOptObjs, allObjOrList,
              extractReady, erElems]
        · cases t <;>
            simp [symShapesField, declShapesField, symStorageShapes,
              symStorageList, symShapes, symShapesElems, listOfOptObjs,
              allObjOrList, declShapes, declShapesElems]
  · -- field: storage-tagged list branch
    intro σ name t a hncond hwf σ0 f' σ' h
    have hcf : (isOptObjB (Value.vlist a) || listOfOptObjs (Value.vlist a)) = false := by
      simpa using hncond
    simp only [genField, hcf, Bool.false_eq_true, if_false] at h
    cases hsl : genStorageList σ0 t name a with
    | error e => simp [hsl, bind, Except.bind] at h
    | ok p =>
      obtain ⟨hs, σ1⟩ := p
      simp only [hsl, bind, Except.bind, Except.ok.injEq, Prod.mk.injEq] at h
      rw [← h.1]
      have hsok : storageOkList a = true := by simpa [wfField, storageOk] using hwf
      have hshapes := genStorageList_shapes a σ0 t name hs σ1 hsok hsl
      have htvp : t = .variableTag ∨ t = .parameterTag := by
        cases a with
        | nil => simp [listOfOptObjs, allObjOrList] at hcf
        | cons a0 arest =>
          obtain ⟨b, rfl⟩ : ∃ b, a0 = .arr b := by
            have := hsok
            simp only [storageOkList, Bool.and_eq_true] at this
            cases a0 with
            | arr b => exact ⟨b, rfl⟩
            | vnone => simp [storageOkLeaf] at this
            | sym hh sh => simp [storageOkLeaf] at this
            | obj fs => simp [storageOkLeaf] at this
            | vlist es => simp [storageOkLeaf] at this
            | plain p => simp [storageOkLeaf] at this
          cases hg0 : generateOptiObject σ0 t name (.arr b) with
          | error e => simp [genStorageList, hg0, bind, Except.bind] at hsl
          | ok q =>
            exact (generateOptiObject_arr_shape σ0 t name b q.1 q.2 (by
              simpa using hg0)).1
      rcases htvp with rfl | rfl
      · exact ⟨by simp [erField, symOrSymList, hshapes.1],
          by simp [symShapesField, declShapesField, hcf, symStorageShapes,
            hshapes.2]⟩
      · exact ⟨by simp [erField, symOrSymList, hshapes.1],
          by simp [symShapesField, declShapesField, hcf, symStorageShapes,
            hshapes.2]⟩
  · -- field: storage-tagged single branch
    intro σ name v hncond t hnotlist hwf σ0 f' σ' h
    have hcf : (isOptObjB v || listOfOptObjs v) = false := by simpa using hncond
    have hsok : storageOk v = true := by simpa [wfField] using hwf
    obtain ⟨a, rfl⟩ : ∃ a, v = .arr a := by
      cases v with
      | arr a => exact ⟨a, rfl⟩
      | vlist es => exact absurd rfl (hnotlist es)
      | vnone => simp [storageOk] at hsok
      | sym hh sh => simp [storageOk] at hsok
      | obj fs => simp [storageOk] at hsok
      | plain p => simp [storageOk] at hsok
    simp only [genField, hcf, Bool.false_eq_true, if_false] at h
    cases hgen : generateOptiObject σ0 t name (.arr a) with
    | error e => simp [hgen, bind, Except.bind] at h
    | ok p =>
      obtain ⟨w, σ1⟩ := p
      simp only [hgen, bind, Except.bind, Except.ok.injEq, Prod.mk.injEq] at h
      rw [← h.1]
      obtain ⟨htvp, hd, rfl⟩ := generateOptiObject_arr_shape σ0 t name a w σ1 hgen
      rcases htvp with rfl | rfl
      · exact ⟨by simp [erField, symOrSymList],
          by simp [symShapesField, declShapesField, hcf, symStorageShapes,
            symLeafShapes, declShapesLeaf]⟩
      · exact ⟨by simp [erField, symOrSymList],
          by simp [symShapesField, declShapesField, hcf, symStorageShapes,
            symLeafShapes, declShapesLeaf]⟩
  · -- field: untagged non-composite branch
    intro σ name v hncond hwf σ0 f' σ' h
    have hcf : (isOptObjB v || listOfOptObjs v) = false := by simpa using hncond
    simp only [genField, hcf, Bool.false_eq_true, if_false,
      Except.ok.injEq, Prod.mk.injEq] at h
    rw [← h.1]
    exact ⟨by simp [erField, hcf], by simp [symShapesField, declShapesField, hcf]⟩

theorem mapNpValue_ok (sol : Nat → NArray) (es : List Value) :
    allSyms es = true → (∀ p ∈ symsOfElems es, (sol p.1).shape = p.2) →
    ∃ es', mapNpValue sol es = .ok es' ∧
      arrStorageList es' = symStorageList es ∧
      skelElems es' = skelElems es := by
  induction es with
  | nil => intro _ _; exact ⟨[], rfl, rfl, rfl⟩
  | cons v rest ih =>
    intro hall hsh
    simp only [allSyms, Bool.and_eq_true] at hall
    obtain ⟨hh, sh, rfl⟩ : ∃ hh sh, v = .sym hh sh := by
      cases v with
      | sym hh sh => exact ⟨hh, sh, rfl⟩
      | vnone => simp [isSymB] at hall
      | arr a => simp [isSymB] at hall
      | obj fs => simp [isSymB] at hall
      | vlist es' => simp [isSymB] at hall
      | plain p => simp [isSymB] at hall
    obtain ⟨rest', hr1, hr2, hr3⟩ := ih hall.2 (by
      intro p hp
      exact hsh p (by simp [symsOfElems, symsOf]; exact Or.inr hp))
    have hshape : (sol hh).shape = sh :=
      hsh (hh, sh) (by simp [symsOfElems, symsOf])
    refine ⟨.arr (sol hh) :: rest', ?_, ?_, ?_⟩
    · simp [mapNpValue, npValue, hr1, bind, Except.bind]
    · simp [arrStorageList, symStorageList, arrLeafShapes, symLeafShapes,
        hshape, hr2]
    · simp [skelElems, skeleton, hr3]

theorem solStorageRead_ok (sol : Nat → NArray) (v : Value) :
    symOrSymList v = true → (∀ p ∈ symsOf v, (sol p.1).shape = p.2) →
    ∃ v', solStorageRead sol v = .ok v' ∧
      arrStorageShapes v' = symStorageShapes v ∧
      skeleton v' = skeleton v := by
  intro hsym hsh
  cases v with
  | sym hh sh =>
    refine ⟨.arr (sol hh), rfl, ?_, rfl⟩
    have hshape : (sol hh).shape = sh := hsh (hh, sh) (by simp [symsOf])
    simp [arrStorageShapes, symStorageShapes, arrLeafShapes, symLeafShapes,
      hshape]
  | vlist es =>
    have hall : allSyms es = true := by simpa [symOrSymList] using hsym
    obtain ⟨es', h1, h2, h3⟩ := mapNpValue_ok sol es hall (by
      intro p hp
      exact hsh p (by simpa [symsOf] using hp))
    refine ⟨.vlist es', ?_, ?_, ?_⟩
    · simp [solStorageRead, h1, bind, Except.bind]
    · simpa [arrStorageShapes, symStorageShapes] using h2
    · simpa [skeleton] using h3
  | vnone => simp [symOrSymList] at hsym
  | arr a => simp [symOrSymList] at hsym
  | obj fs => simp [symOrSymList] at hsym
  | plain p => simp [symOrSymList] at hsym

theorem extractor_shapes (sol : Nat → NArray) :
    ∀ (v : Value), extractReady v = true →
      (∀ p ∈ symsOf v, (sol p.1).shape = p.2) →
      ∃ out, generateSolutionOutput sol v = .ok out ∧
        outShapes out = symShapes v ∧ skeleton out = skeleton v ∧
        isOptObjB out = isOptObjB v ∧ isListV out = isListV v ∧
        (listOfOptObjs v = true → listOfOptObjs out = true) := by
  refine generateSolutionOutput.induct sol
    (fun v => extractReady v = true →
      (∀ p ∈ symsOf v, (sol p.1).shape = p.2) →
      ∃ out, generateSolutionOutput sol v = .ok out ∧
        outShapes out = symShapes v ∧ skeleton out = skeleton v ∧
        isOptObjB out = isOptObjB v ∧ isListV out = isListV v ∧
        (listOfOptObjs v = true → listOfOptObjs out = true))
    (fun fs => erFields fs = true →
      (∀ p ∈ symsOfFields fs, (sol p.1).shape = p.2) →
      ∃ fs', solOutFields sol fs = .ok fs' ∧
        outShapesFields fs' = symShapesFields fs ∧
        skelFields fs' = skelFields fs)
    (fun es => erElems es = true →
      (∀ p ∈ symsOfElems es, (sol p.1).shape = p.2) →
      ∃ es', solElems sol es = .ok es' ∧
        outShapesElems es' = symShapesElems es ∧
        skelElems es' = skelElems es ∧ allObjOrList es' = true)
    ?_ ?_ ?_ ?_ ?_ ?_ ?_ ?_ ?_ ?_
  · -- vlist
    intro es hm3 her hsh
    obtain ⟨es', h1, h2, h3, h4⟩ := hm3 (by simpa [extractReady] using her)
      (by intro p hp; exact hsh p (by simpa [symsOf] using hp))
    refine ⟨.vlist es', ?_, ?_, ?_, rfl, rfl, ?_⟩
    · simp [generateSolutionOutput, h1, bind, Except.bind]
    · simpa [outShapes, symShapes] using h2
    · simpa [skeleton] using h3
    · intro _; simpa [listOfOptObjs] using h4
  · -- obj
    intro fs hm2 her hsh
    obtain ⟨fs', h1, h2, h3⟩ := hm2 (by simpa [extractReady] using her)
      (by intro p hp; exact hsh p (by simpa [symsOf] using hp))
    refine ⟨.obj fs', ?_, ?_, ?_, rfl, rfl, ?_⟩
    · simp [generateSolutionOutput, h1, bind, Except.bind]
    · simpa [outShapes, symShapes] using h2
    · simpa [skeleton] using h3
    · intro hc; simp [listOfOptObjs] at hc
  · -- neither
    intro v hnl hno her hsh
    cases v with
    | vlist es => exact absurd rfl (hnl es)
    | obj fs => exact absurd rfl (hno fs)
    | vnone => simp [extractReady] at her
    | arr a => simp [extractReady] at her
    | sym hh sh => simp [extractReady] at her
    | plain p => simp [extractReady] at her
  · -- fields nil
    intro _ _
    exact ⟨[], rfl, rfl, rfl⟩
  · -- fields cons, Variable storage
    intro name v rest hm2 her hsh
    simp only [erFields, Bool.and_eq_true] at her
    have hsv : symOrSymList v = true := by simpa [erField] using her.1
    obtain ⟨v', hv1, hv2, hv3⟩ := solStorageRead_ok sol v hsv (by
      intro p hp
      exact hsh p (by simp [symsOfFields]; exact Or.inl hp))
    obtain ⟨rest', hr1, hr2, hr3⟩ := hm2 her.2 (by
      intro p hp
      exact hsh p (by simp [symsOfFields]; exact Or.inr hp))
    refine ⟨(name, some .variableTag, v') :: rest', ?_, ?_, ?_⟩
    · simp [solOutFields, hv1, hr1, bind, Except.bind]
    · simp [outShapesFields, symShapesFields, outShapesField, symShapesField,
        hv2, hr2]
    · simp [skelFields, hv3, hr3]
  · -- fields cons, Parameter storage
    intro name v rest hm2 her hsh
    simp only [erFields, Bool.and_eq_true] at her
    have hsv : symOrSymList v = true := by simpa [erField] using her.1
    obtain ⟨v', hv1, hv2, hv3⟩ := solStorageRead_ok sol v hsv (by
      intro p hp
      exact hsh p (by simp [symsOfFields]; exact Or.inl hp))
    obtain ⟨rest', hr1, hr2, hr3⟩ := hm2 her.2 (by
      intro p hp
      exact hsh p (by simp [symsOfFields]; exact Or.inr hp))
    refine ⟨(name, some .parameterTag, v') :: rest', ?_, ?_, ?_⟩
    · simp [solOutFields, hv1, hr1, bind, Except.bind]
    · simp [outShapesFields, symShapesFields, outShapesField, symShapesField,
        hv2, hr2]
    · simp [skelFields, hv3, hr3]
  · -- fields cons, composite
    intro name tag v rest hcond hnv hnp hm1 hm2 her hsh
    simp only [erFields, Bool.and_eq_true] at her
    have herv : extractReady v = true := by
      cases tag with
      | none => simpa [erField, hcond] using her.1
      | some t =>
        cases t with
        | variableTag => exact absurd rfl hnv
        | parameterTag => exact absurd rfl hnp
        | otherTag => simpa [erField, hcond] using her.1
    obtain ⟨v', hv1, hv2, hv3, hv4, hv5, hv6⟩ := hm1 herv (by
      intro p hp
      exact hsh p (by simp [symsOfFields]; exact Or.inl hp))
    obtain ⟨rest', hr1, hr2, hr3⟩ := hm2 her.2 (by
      intro p hp
      exact hsh p (by simp [symsOfFields]; exact Or.inr hp))
    have hcond' : (isOptObjB v' || listOfOptObjs v') = true := by
      rcases Bool.or_eq_true _ _ |>.mp hcond with hco | hcl
      · simp [Bool.or_eq_true, hv4, hco]
      · simp [Bool.or_eq_true, hv6 hcl]
    refine ⟨(name, tag, v') :: rest', ?_, ?_, ?_⟩
    · cases tag with
      | none => simp [solOutFields, hcond, hv1, hr1, bind, Except.bind]
      | some t =>
        cases t with
        | variableTag => exact absurd rfl hnv
        | parameterTag => exact absurd rfl hnp
        | otherTag => simp [solOutFields, hcond, hv1, hr1, bind, Except.bind]
    · cases tag with
      | none =>
        simp [outShapesFields, symShapesFields, outShapesField, symShapesField,
          hcond, hcond', hv2, hr2]
      | some t =>
        cases t with
        | variableTag => exact absurd rfl hnv
        | parameterTag => exact absurd rfl hnp
        | otherTag =>
          simp [outShapesFields, symShapesFields, outShapesField, symShapesField,
            hcond, hcond', hv2, hr2]
    · simp [skelFields, hv3, hr3]
  · -- fields cons, untouched
    intro name tag v rest hncond hnv hnp hm2 her hsh
    simp only [erFields, Bool.and_eq_true] at her
    have hcf : (isOptObjB v || listOfOptObjs v) = false := by simpa using hncond
    obtain ⟨rest', hr1, hr2, hr3⟩ := hm2 her.2 (by
      intro p hp
      exact hsh p (by simp [symsOfFields]; exact Or.inr hp))
    refine ⟨(name, tag, v) :: rest', ?_, ?_, ?_⟩
    · cases tag with
      | none => simp [solOutFields, hcf, hr1, bind, Except.bind]
      | some t =>
        cases t with
        | variableTag => exact absurd rfl hnv
        | parameterTag => exact absurd rfl hnp
        | otherTag => simp [solOutFields, hcf, hr1, bind, Except.bind]
    · cases tag with
      | none =>
        simp [outShapesFields, symShapesFields, outShapesField, symShapesField,
          hcf, hr2]
      | some t =>
        cases t with
        | variableTag => exact absurd rfl hnv
        | parameterTag => exact absurd rfl hnp
        | otherTag =>
          simp [outShapesFields, symShapesFields, outShapesField, symShapesField,
            hcf, hr2]
    · simp [skelFields, hr3]
  · -- elems nil
    intro _ _
    exact ⟨[], rfl, rfl, rfl, rfl⟩
  · -- elems cons
    intro v rest hm1 hm3 her hsh
    simp only [erElems, Bool.and_eq_true] at her
    obtain ⟨v', hv1, hv2, hv3, hv4, hv5, hv6⟩ := hm1 her.1.2 (by
      intro p hp
      exact hsh p (by simp [symsOfElems]; exact Or.inl hp))
    obtain ⟨rest', hr1, hr2, hr3, hr4⟩ := hm3 her.2 (by
      intro p hp
      exact hsh p (by simp [symsOfElems]; exact Or.inr hp))
    have hcls : objOrList v' = true := by
      simp only [objOrList, hv4, hv5]
      exact her.1.1
    refine ⟨v' :: rest', ?_, ?_, ?_, ?_⟩
    · simp [solElems, hv1, hr1, bind, Except.bind]
    · simp [outShapesElems, symShapesElems, hv2, hr2]
    · simp [skelElems, hv3, hr3]
    · simp [allObjOrList, hcls, hr4]

/-- C5: round-trip shape preservation. For any well-formed Structured Record
(or nested list of records) whose storage leaves declare numeric arrays, if
symbol generation succeeds and the solve returns, for every created handle,
a value of that handle's shape (in particular the trivial solve returning
each symbol's value unchanged), then solution extraction succeeds and the
extracted tree carries numeric arrays whose shapes are exactly the declared
shapes, with every rank-1 declared array normalized to column (N,1) form,
and the output tree is structurally isomorphic to the symbol tree. -/
theorem C5_round_trip_shape_preservation (input : Value) (σ0 : OptiState)
    (t : Value) (σ1 : OptiState) (sol : Nat → NArray)
    (hwf : wfVal input = true)
    (hgen : generateOptimizationObjects σ0 input = .ok (t, σ1))
    (hsol : ∀ p ∈ symsOf t, (sol p.1).shape = p.2) :
    ∃ out, generateSolutionOutput sol t = .ok out ∧
      outShapes out = declShapes input ∧
      skeleton out = skeleton t := by
  have hA := generator_extractReady σ0 input hwf σ0 t σ1 hgen
  obtain ⟨out, h1, h2, h3, _⟩ := extractor_shapes sol t hA.1 hsol
  exact ⟨out, h1, by rw [h2, hA.2.1], h3⟩

/-- Witness for C5 on a concrete record with a rank-1 Variable leaf and a
nested record with a rank-2 Parameter leaf. -/
theorem C5_round_trip_shape_preservation_witness :
    wfVal (.obj [("x", some .variableTag, .arr ⟨[3], 0⟩),
      ("sub", none, .obj [("p", some .parameterTag, .arr ⟨[2, 2], 1⟩)])]) = true ∧
    generateOptimizationObjects ⟨0, [], none⟩
      (.obj [("x", some .variableTag, .arr ⟨[3], 0⟩),
        ("sub", none, .obj [("p", some .parameterTag, .arr ⟨[2, 2], 1⟩)])]) =
      .ok (.obj [("x", some .variableTag, .sym 0 [3, 1]),
        ("sub", none, .obj [("p", some .parameterTag, .sym 1 [2, 2])])],
        ⟨2, [(0, .varHandle, [3, 1]), (1, .paramHandle, [2, 2])],
          some (.obj [("x", some .variableTag, .sym 0 [3, 1]),
            ("sub", none, .obj [("p", some .parameterTag, .sym 1 [2, 2])])])⟩) ∧
    ∃ out,
      generateSolutionOutput (fun h => if h = 0 then ⟨[3, 1], 0⟩ else ⟨[2, 2], 0⟩)
        (.obj [("x", some .variableTag, .sym 0 [3, 1]),
          ("sub", none, .obj [("p", some .parameterTag, .sym 1 [2, 2])])]) =
        .ok out ∧
      outShapes out =
        declShapes (.obj [("x", some .variableTag, .arr ⟨[3], 0⟩),
          ("sub", none, .obj [("p", some .parameterTag, .arr ⟨[2, 2], 1⟩)])]) ∧
      skeleton out =
        skeleton (.obj [("x", some .variableTag, .sym 0 [3, 1]),
          ("sub", none, .obj [("p", some .parameterTag, .sym 1 [2, 2])])]) :=
  ⟨rfl, rfl,
    C5_round_trip_shape_preservation
      (.obj [("x", some .variableTag, .arr ⟨[3], 0⟩),
        ("sub", none, .obj [("p", some .parameterTag, .arr ⟨[2, 2], 1⟩)])])
      ⟨0, [], none⟩
      (.obj [("x", some .variableTag, .sym 0 [3, 1]),
        ("sub", none, .obj [("p", some .parameterTag, .sym 1 [2, 2])])])
      ⟨2, [(0, .varHandle, [3, 1]), (1, .paramHandle, [2, 2])],
        some (.obj [("x", some .variableTag, .sym 0 [3, 1]),
          ("sub", none, .obj [("p", some .parameterTag, .sym 1 [2, 2])])])⟩
      (fun h => if h = 0 then ⟨[3, 1], 0⟩ else ⟨[2, 2], 0⟩)
      rfl rfl (by decide)⟩

end Hippopt